import Mathlib

/-!
Verification of the text-search core of the arknights-story-reader
repository (src-tauri/src/data_service.rs and src-tauri/src/parser.rs)
against its natural-language specification.

The Rust code is shallowly embedded: every definition below mirrors one
source function (same name where Lean allows it, snake_case preserved).
Strings are modelled as Lean `String`/`List Char`; Rust byte indices are
modelled by summing UTF-8 sizes of characters, so byte arithmetic is
faithful.

The source calls three external components that are not part of the
repository:

* the `unicode_normalization` crate (`nfkc`, `canonical_combining_class`)
  and Rust `char::to_lowercase`/`char::to_uppercase`.  These are
  table-driven implementations of the Unicode character database.  We
  embed the exact UAX #15 algorithm (decompose, canonically reorder,
  compose with blocking, including the algorithmic Hangul syllable
  composition and decomposition) over an explicit finite fragment of the
  tables.  Characters absent from the fragment take the Unicode default
  (no decomposition, combining class 0, no case mapping), which is the
  true value for every character exercised in this development (ASCII is
  covered exactly; CJK ideographs, Hangul jamo and the punctuation used
  in the stories all have default properties except where listed).
* SQLite/FTS5.  The index connection and the MATCH engine are modelled
  as abstract state (`FtsIndex`): the ranked match list and the
  snippet() values are uninterpreted functions of the compiled query,
  while the LIMIT clause, the row mapping and all orchestration around
  the engine are embedded from the source.
* the filesystem and the serde JSON layer (which the specification
  explicitly puts out of scope as ETL glue).  File reads and the story
  collection walk are abstract state fields; the NOT_INSTALLED guards
  that precede them are embedded from the source.
-/

/-! ## Unicode character model -/

/-- White_Space property, the exact set used by Rust `char::is_whitespace`
and by the regex class `\s`. -/
def rustIsWhitespace (c : Char) : Bool :=
  let n := c.toNat
  (9 ≤ n && n ≤ 13) || n = 32 || n = 0x85 || n = 0xA0 || n = 0x1680 ||
    (0x2000 ≤ n && n ≤ 0x200A) || n = 0x2028 || n = 0x2029 ||
    n = 0x202F || n = 0x205F || n = 0x3000

/-- Rust `char::is_ascii_punctuation`: the four ASCII punctuation ranges. -/
def isAsciiPunct (c : Char) : Bool :=
  let n := c.toNat
  (0x21 ≤ n && n ≤ 0x2F) || (0x3A ≤ n && n ≤ 0x40) ||
    (0x5B ≤ n && n ≤ 0x60) || (0x7B ≤ n && n ≤ 0x7E)

/-- Rust `char::is_ascii_alphanumeric`. -/
def isAsciiAlnum (c : Char) : Bool :=
  let n := c.toNat
  (0x30 ≤ n && n ≤ 0x39) || (0x41 ≤ n && n ≤ 0x5A) || (0x61 ≤ n && n ≤ 0x7A)

/-- Rust `char::is_ascii_digit`. -/
def isAsciiDigitC (c : Char) : Bool :=
  0x30 ≤ c.toNat && c.toNat ≤ 0x39

/-- Rust `char::to_ascii_lowercase`: shift A–Z, identity elsewhere. -/
def toAsciiLower (c : Char) : Char :=
  if 0x41 ≤ c.toNat && c.toNat ≤ 0x5A then Char.ofNat (c.toNat + 32) else c

/-- Rust `str::to_ascii_lowercase` over the character list. -/
def strAsciiLower (s : String) : String :=
  String.mk (s.data.map toAsciiLower)

/-- Fragment of the Unicode simple-lowercase table used by
`char::to_lowercase`: the 26 ASCII entries.  Characters without an entry
have no lowercase mapping (the Unicode default), which is true for every
non-ASCII character appearing in this development. -/
def lowerPairs : List (Char × Char) :=
  [('A', 'a'), ('B', 'b'), ('C', 'c'), ('D', 'd'), ('E', 'e'), ('F', 'f'),
   ('G', 'g'), ('H', 'h'), ('I', 'i'), ('J', 'j'), ('K', 'k'), ('L', 'l'),
   ('M', 'm'), ('N', 'n'), ('O', 'o'), ('P', 'p'), ('Q', 'q'), ('R', 'r'),
   ('S', 's'), ('T', 't'), ('U', 'u'), ('V', 'v'), ('W', 'w'), ('X', 'x'),
   ('Y', 'y'), ('Z', 'z')]

/-- Rust `char::to_lowercase` (an iterator of characters, possibly several;
on this table fragment always one). -/
def toLowerChar (c : Char) : List Char :=
  match lowerPairs.lookup c with
  | some d => [d]
  | none => [c]

/-- Fragment of the Unicode uppercase table used by `char::to_uppercase`:
the 26 ASCII entries, identity elsewhere. -/
def toUpperChar (c : Char) : List Char :=
  match (lowerPairs.map (fun p => (p.2, p.1))).lookup c with
  | some d => [d]
  | none => [c]

/-- Canonical combining class fragment (`canonical_combining_class`).
Unlisted characters have class 0, the Unicode default; every base
character in this development (ASCII, CJK, Hangul) truly has class 0. -/
def cccPairs : List (Char × Nat) :=
  [('̀', 230), ('́', 230), ('̂', 230), ('̃', 230),
   ('̇', 230), ('̈', 230), ('̣', 220), ('̨', 202)]

/-- Canonical combining class of a character. -/
def cccOf (c : Char) : Nat :=
  match cccPairs.lookup c with
  | some n => n
  | none => 0

/-! Hangul syllable composition/decomposition is algorithmic in UAX #15;
these are the standard constants and formulas. -/

def hangulSBase : Nat := 0xAC00
def hangulLBase : Nat := 0x1100
def hangulVBase : Nat := 0x1161
def hangulTBase : Nat := 0x11A7
def hangulLCount : Nat := 19
def hangulVCount : Nat := 21
def hangulTCount : Nat := 28
def hangulNCount : Nat := hangulVCount * hangulTCount
def hangulSCount : Nat := hangulLCount * hangulNCount

def isHangulSyllable (c : Char) : Bool :=
  hangulSBase ≤ c.toNat && c.toNat < hangulSBase + hangulSCount

def isHangulL (c : Char) : Bool :=
  hangulLBase ≤ c.toNat && c.toNat < hangulLBase + hangulLCount

def isHangulV (c : Char) : Bool :=
  hangulVBase ≤ c.toNat && c.toNat < hangulVBase + hangulVCount

def isHangulT (c : Char) : Bool :=
  hangulTBase < c.toNat && c.toNat < hangulTBase + hangulTCount

/-- Algorithmic decomposition of a Hangul syllable (UAX #15 §3.12). -/
def hangulDecompose (c : Char) : List Char :=
  let sIndex := c.toNat - hangulSBase
  let l := Char.ofNat (hangulLBase + sIndex / hangulNCount)
  let v := Char.ofNat (hangulVBase + (sIndex % hangulNCount) / hangulTCount)
  let tIndex := sIndex % hangulTCount
  if tIndex = 0 then [l, v] else [l, v, Char.ofNat (hangulTBase + tIndex)]

/-- Fragment of the Unicode primary canonical composite table (the full
table holds about a thousand pairs).  Listed here are the pairs exercised
in this development: the Bengali two-part vowel U+09C7 + U+09BE → U+09CB,
a representative non-Hangul starter pair that real NFKC composes.
Unlisted pairs fall through to none, the Unicode default for pairs
outside the table. -/
def compositionPairs : List ((Char × Char) × Char) :=
  [((Char.ofNat 0x9C7, Char.ofNat 0x9BE), Char.ofNat 0x9CB)]

/-- Canonical composition of a pair, Hangul-algorithmic or table-driven
(UAX #15 Canonical Composition Algorithm). -/
def composePair (a b : Char) : Option Char :=
  if isHangulL a && isHangulV b then
    let lIndex := a.toNat - hangulLBase
    let vIndex := b.toNat - hangulVBase
    some (Char.ofNat (hangulSBase + (lIndex * hangulVCount + vIndex) * hangulTCount))
  else if isHangulSyllable a && (a.toNat - hangulSBase) % hangulTCount = 0 && isHangulT b then
    some (Char.ofNat (a.toNat + (b.toNat - hangulTBase)))
  else
    compositionPairs.lookup (a, b)

/-- Fragment of the (fully recursively expanded) compatibility
decomposition table, kept consistent with `compositionPairs`: the primary
composite U+09CB decomposes to U+09C7 U+09BE.  ASCII, CJK ideographs,
Hangul jamo and the combining marks listed in `cccPairs` all decompose to
themselves, the Unicode default for characters outside the table. -/
def decompositionPairs : List (Char × List Char) :=
  [(Char.ofNat 0x9CB, [Char.ofNat 0x9C7, Char.ofNat 0x9BE])]

/-- Full NFKD decomposition of one character: algorithmic for Hangul
syllables, table-driven otherwise, identity by default. -/
def decomposeChar (c : Char) : List Char :=
  if isHangulSyllable c then hangulDecompose c
  else match decompositionPairs.lookup c with
    | some l => l
    | none => [c]

/-- One bubble step of the UAX #15 Canonical Ordering pass, carrying the
character currently being bubbled. -/
def reorderGo (a : Char) : List Char → List Char
  | [] => [a]
  | b :: t =>
    if cccOf b ≠ 0 && cccOf a > cccOf b then b :: reorderGo a t
    else a :: reorderGo b t

/-- One pass of the UAX #15 Canonical Ordering bubble: exchange adjacent
characters when ccc(a) > ccc(b) > 0. -/
def reorderPass : List Char → List Char
  | [] => []
  | a :: t => reorderGo a t

/-- Iterated bubble passes; `n` passes fully sort a list of length `n`. -/
def reorderIter : Nat → List Char → List Char
  | 0, l => l
  | n + 1, l => reorderIter n (reorderPass l)

/-- Canonical Ordering Algorithm: stable sort of nonzero-ccc runs. -/
def canonicalReorder (l : List Char) : List Char :=
  reorderIter l.length l

/-- Core of the UAX #15 Canonical Composition Algorithm.  `starter` is the
last starter, `pending` the (canonically ordered) nonzero-ccc characters
seen since it, `lastCcc` the class of the last pending character (0 when
none).  A character combines with the starter when it is not blocked:
no intervening character of greater-or-equal class. -/
def composeRun (starter : Char) (pending : List Char) (lastCcc : Nat) :
    List Char → List Char
  | [] => starter :: pending
  | c :: t =>
    if cccOf c = 0 then
      match composePair starter c with
      | some comp =>
        if pending.isEmpty then composeRun comp [] 0 t
        else (starter :: pending) ++ composeRun c [] 0 t
      | none => (starter :: pending) ++ composeRun c [] 0 t
    else
      if lastCcc < cccOf c then
        match composePair starter c with
        | some comp => composeRun comp pending lastCcc t
        | none => composeRun starter (pending ++ [c]) (cccOf c) t
      else composeRun starter (pending ++ [c]) (cccOf c) t

/-- Canonical Composition Algorithm over a decomposed, reordered list. -/
def canonicalCompose : List Char → List Char
  | [] => []
  | c :: t => if cccOf c = 0 then composeRun c [] 0 t else c :: canonicalCompose t

/-- NFKC over the character list: full compatibility decomposition,
canonical reorder, canonical composition. -/
def nfkcList (l : List Char) : List Char :=
  canonicalCompose (canonicalReorder (l.flatMap decomposeChar))

/-- No adjacent pair of the list canonically composes (neither
Hangul-algorithmically nor through the composite table). -/
def noComposablePair : List Char → Bool
  | [] => true
  | [_] => true
  | a :: b :: t => (composePair a b).isNone && noComposablePair (b :: t)

/-- Source `normalize_nfkc_lower_strip_marks` (data_service.rs:171):
NFKC, per-character lowercase, drop characters of nonzero canonical
combining class. -/
def normalize_nfkc_lower_strip_marks (text : String) : String :=
  String.mk (((nfkcList text.data).flatMap toLowerChar).filter (fun c => cccOf c = 0))

/-! ## Tokenizer and punctuation (data_service.rs) -/

/-- Source `is_common_punctuation` (data_service.rs:121): ASCII
punctuation plus a fixed list of CJK/fullwidth punctuation. -/
def is_common_punctuation (ch : Char) : Bool :=
  if isAsciiPunct ch then true
  else
    [ '，', '、', '。', '！', '？', '：', '；', '（', '）', '【', '】',
      '「', '」', '『', '』', '《', '》', '〈', '〉', '—', '～', '…', '·',
      '﹑', '﹔', '﹗', '﹖', '﹐', '﹒', '﹕', '︰'].contains ch

/-- Source `is_cjk` (data_service.rs:161): the basic and extension CJK
Unified Ideograph ranges. -/
def is_cjk (ch : Char) : Bool :=
  let n := ch.toNat
  (0x4E00 ≤ n && n ≤ 0x9FFF) || (0x3400 ≤ n && n ≤ 0x4DBF) ||
    (0x20000 ≤ n && n ≤ 0x2A6DF) || (0x2A700 ≤ n && n ≤ 0x2B73F) ||
    (0x2B740 ≤ n && n ≤ 0x2B81F) || (0x2B820 ≤ n && n ≤ 0x2CEAF)

/-- Rust `char::is_alphanumeric` (Alphabetic or decimal/letter/other
number).  Finite-fragment model: ASCII alphanumerics, CJK ideographs and
Hangul; the tokenizer below treats alphabetic and other non-space
non-punctuation characters identically character-wise, so the fragment
only selects between two branches that emit the same character. -/
def rustIsAlphanumeric (c : Char) : Bool :=
  isAsciiAlnum c || is_cjk c || isHangulSyllable c || isHangulL c ||
    isHangulV c || isHangulT c

/-- Loop of `tokenize_for_fts`: `buf` is the pending ASCII-alphanumeric
run (`ascii_buffer` in the source). -/
def tokenizeLoop : List Char → List Char → List String
  | [], buf => if buf.isEmpty then [] else [String.mk buf]
  | c :: cs, buf =>
    if isAsciiAlnum c then tokenizeLoop cs (buf ++ [toAsciiLower c])
    else
      (if buf.isEmpty then [] else [String.mk buf]) ++
        (if rustIsWhitespace c then tokenizeLoop cs []
         else if is_common_punctuation c then tokenizeLoop cs []
         else if rustIsAlphanumeric c then
           (let tok := toLowerChar c
            (if tok.isEmpty then [] else [String.mk tok]) ++ tokenizeLoop cs [])
         else [String.mk [c]] ++ tokenizeLoop cs [])

/-- Source `tokenize_for_fts` (data_service.rs:554): normalize, then scan
characters, accumulating ASCII-alphanumeric runs, dropping whitespace and
common punctuation, and emitting every other character as its own token. -/
def tokenize_for_fts (text : String) : List String :=
  tokenizeLoop (normalize_nfkc_lower_strip_marks text).data []

/-- Source `build_tokenized_content` (data_service.rs:596). -/
def build_tokenized_content (text : String) : String :=
  String.intercalate " " (tokenize_for_fts text)

/-! ## Query compiler (data_service.rs:605) -/

/-- Rust `str::trim` on the character list (White_Space at both ends). -/
def trimWsList (l : List Char) : List Char :=
  ((l.dropWhile rustIsWhitespace).reverse.dropWhile rustIsWhitespace).reverse

/-- Rust `str::trim` as a String function. -/
def trimStr (s : String) : String :=
  String.mk (trimWsList s.data)

/-- One extracted query term: `(term, is_not, is_or_before)` in the
source. -/
structure QTerm where
  content : String
  isNot : Bool
  orBefore : Bool
deriving DecidableEq, Repr

/-- Shared push logic of the term extraction loop: an `or` token flips the
pending connective, a leading `-` marks negation and is stripped
(`trim_start_matches`), empty content is dropped. -/
def pushTermLogic (t : List Char) (prev : Bool) : List QTerm × Bool :=
  if t = ['o', 'r'] then ([], true)
  else
    let isNot := t.head? = some '-'
    let content := if isNot then t.dropWhile (fun c => c = '-') else t
    if content.isEmpty then ([], prev)
    else ([⟨String.mk content, isNot, prev⟩], false)

/-- Term extraction loop of `build_fts_query_advanced`: a simple tokenizer
that respects double-quoted phrases.  State: remaining input, `buf`,
`in_quotes`, `prev_was_or`. -/
def extractTermsLoop : List Char → List Char → Bool → Bool → List QTerm
  | [], buf, _, prev =>
    if buf.isEmpty then [] else (pushTermLogic buf prev).1
  | ch :: rest, buf, inQ, prev =>
    if ch = '"' then
      if inQ then
        if buf.isEmpty then extractTermsLoop rest [] false prev
        else ⟨String.mk buf, false, prev⟩ :: extractTermsLoop rest [] false false
      else
        if (trimWsList buf).isEmpty then extractTermsLoop rest buf true prev
        else
          let r := pushTermLogic buf prev
          r.1 ++ extractTermsLoop rest [] true r.2
    else if rustIsWhitespace ch && !inQ then
      if buf.isEmpty then extractTermsLoop rest [] false prev
      else
        let r := pushTermLogic buf prev
        r.1 ++ extractTermsLoop rest [] false r.2
    else extractTermsLoop rest (buf ++ [ch]) inQ prev

/-- Source `to_phrase_if_cjk` (data_service.rs:691): an all-CJK term
becomes a quoted space-separated per-character phrase, an all-ASCII-
alphanumeric term gets a trailing `*`, anything else is quoted with
internal quotes stripped. -/
def to_phrase_if_cjk (s : String) : String :=
  let hasCjk := s.data.any is_cjk
  let allCjk := s.data.all (fun ch => is_cjk ch || rustIsWhitespace ch)
  if hasCjk && allCjk then
    let parts := (s.data.filter (fun c => !rustIsWhitespace c)).map
      (fun c => if c = '"' then ' ' else c)
    "\"" ++ String.intercalate " " (parts.map (fun c => String.mk [c])) ++ "\""
  else if s.data.all isAsciiAlnum then s ++ "*"
  else "\"" ++ String.mk (s.data.filter (fun c => c ≠ '"')) ++ "\""

/-- Joining pass of `build_fts_query_advanced`: skip empty terms, apply
`NOT`, insert the `AND`/`OR` connective before every term but the
first. -/
def buildQueryParts (terms : List QTerm) : List String :=
  terms.enum.flatMap (fun p =>
    if p.2.content.data.isEmpty then []
    else
      let piece := to_phrase_if_cjk p.2.content
      let piece := if p.2.isNot then "NOT " ++ piece else piece
      (if p.1 > 0 then [if p.2.orBefore then "OR" else "AND"] else []) ++ [piece])

/-- Source `build_fts_query_advanced` (data_service.rs:605): normalize the
trimmed query, extract terms (quotes, `or`, leading `-`), classify each
term, join with connectives; `none` when nothing remains. -/
def build_fts_query_advanced (raw_query : String) : Option String :=
  let q := normalize_nfkc_lower_strip_marks (trimStr raw_query)
  if q.data.isEmpty then none
  else
    let terms := extractTermsLoop q.data [] false false
    if terms.isEmpty then none
    else
      let parts := buildQueryParts terms
      if parts.isEmpty then none else some (String.intercalate " " parts)

/-! ## Markup parser (parser.rs) -/

/-- UTF-8 byte size of a character (Char has no surrogates). -/
def utf8SizeC (c : Char) : Nat :=
  if c.toNat < 0x80 then 1 else if c.toNat < 0x800 then 2
  else if c.toNat < 0x10000 then 3 else 4

/-- Rust `str::len`: the UTF-8 byte length. -/
def utf8Len (l : List Char) : Nat :=
  (l.map utf8SizeC).sum

/-- Split on a separator predicate keeping empty chunks, the semantics of
Rust `str::split`. -/
def splitOnPred (p : Char → Bool) : List Char → List (List Char)
  | [] => [[]]
  | c :: t =>
    match splitOnPred p t with
    | [] => if p c then [[], []] else [[c]]
    | h :: r => if p c then [] :: h :: r else (c :: h) :: r

/-- Rust `str::trim_matches(c)`: strip every leading and trailing `c`. -/
def trimMatchesChar (c : Char) (l : List Char) : List Char :=
  ((l.dropWhile (fun x => x = c)).reverse.dropWhile (fun x => x = c)).reverse

/-- Rust `str::replace`: leftmost non-overlapping replacement of every
occurrence of `pat` (always nonempty here).  Fuel is the list length;
every step consumes at least one character. -/
def replaceGo (pat repl : List Char) : Nat → List Char → List Char
  | 0, l => l
  | _ + 1, [] => []
  | fuel + 1, c :: t =>
    if pat.isPrefixOf (c :: t) then repl ++ replaceGo pat repl fuel ((c :: t).drop pat.length)
    else c :: replaceGo pat repl fuel t

/-- Rust `str::replace` over character lists. -/
def replaceList (l pat repl : List Char) : List Char :=
  replaceGo pat repl l.length l

/-- Word character of the attribute regex key class `(?i)[a-z0-9_]`. -/
def isWordChar (c : Char) : Bool :=
  isAsciiAlnum c || c = '_'

/-- Match the attribute regex `(?i)([a-z0-9_]+)\s*=\s*"([^"]*)"` at the
head of the input; on success return the two captures and the rest.  The
pattern is backtrack-free: key characters cannot match `\s*=` and the
value run is delimited by the next quote, so maximal munch is exact. -/
def matchAttrAt (l : List Char) : Option ((String × String) × List Char) :=
  let key := l.takeWhile isWordChar
  if key.isEmpty then none
  else
    let r1 := (l.drop key.length).dropWhile rustIsWhitespace
    match r1 with
    | '=' :: r2 =>
      match r2.dropWhile rustIsWhitespace with
      | '"' :: r3 =>
        let v := r3.takeWhile (fun c => c ≠ '"')
        match r3.drop v.length with
        | '"' :: r4 => some ((String.mk key, String.mk v), r4)
        | _ => none
      | _ => none
    | _ => none

/-- Scanner equivalent of `ATTR_RE.captures_iter`: leftmost,
non-overlapping, advancing one character on failure. -/
def scanAttrsGo : Nat → List Char → List (String × String)
  | 0, _ => []
  | _ + 1, [] => []
  | fuel + 1, c :: t =>
    match matchAttrAt (c :: t) with
    | some (kv, rest) => kv :: scanAttrsGo fuel rest
    | none => scanAttrsGo fuel t

/-- Source `parse_attributes` (parser.rs:222): every `key="value"` match,
keys lowercased; a later duplicate key overwrites an earlier one
(HashMap insert), so lookups read the last occurrence. -/
def parse_attributes (source : List Char) : List (String × String) :=
  (scanAttrsGo source.length source).map (fun kv => (strAsciiLower kv.1, kv.2))

/-- HashMap `get` over the insert-ordered pair list: last write wins. -/
def attrsGet (attrs : List (String × String)) (key : String) : Option String :=
  ((attrs.filter (fun kv => kv.1 = key)).getLast?).map (fun kv => kv.2)

/-- Match `(?i)option\d+="([^"]+)"` at the head of the input, returning
the capture and the rest. -/
def matchNumberedAt (l : List Char) : Option (String × List Char) :=
  let pre := l.take 6
  if pre.map toAsciiLower = ['o', 'p', 't', 'i', 'o', 'n'] then
    let r1 := l.drop 6
    let digits := r1.takeWhile isAsciiDigitC
    if digits.isEmpty then none
    else
      match r1.drop digits.length with
      | '=' :: '"' :: r2 =>
        let v := r2.takeWhile (fun c => c ≠ '"')
        if v.isEmpty then none
        else
          match r2.drop v.length with
          | '"' :: r3 => some (String.mk v, r3)
          | _ => none
      | _ => none
  else none

/-- Scanner equivalent of `DECISION_NUMBERED_RE.captures_iter`. -/
def scanNumberedGo : Nat → List Char → List String
  | 0, _ => []
  | _ + 1, [] => []
  | fuel + 1, c :: t =>
    match matchNumberedAt (c :: t) with
    | some (v, rest) => v :: scanNumberedGo fuel rest
    | none => scanNumberedGo fuel t

/-- All captures of the numbered-decision regex over a source string. -/
def scanNumbered (l : List Char) : List String :=
  scanNumberedGo l.length l

/-- Match `(?i)<p[^>]*>` at the head of the input; return the rest. -/
def matchParaAt (l : List Char) : Option (List Char) :=
  match l with
  | '<' :: p :: r1 =>
    if toAsciiLower p = 'p' then
      let inner := r1.takeWhile (fun c => c ≠ '>')
      match r1.drop inner.length with
      | '>' :: r2 => some r2
      | _ => none
    else none
  | _ => none

/-- `PARAGRAPH_TAG_RE.replace_all(_, "\n")`. -/
def replaceParasGo : Nat → List Char → List Char
  | 0, l => l
  | _ + 1, [] => []
  | fuel + 1, c :: t =>
    match matchParaAt (c :: t) with
    | some rest => '\n' :: replaceParasGo fuel rest
    | none => c :: replaceParasGo fuel t

/-- Match `<[^>]+>` at the head of the input; return the rest. -/
def matchGenericAt (l : List Char) : Option (List Char) :=
  match l with
  | '<' :: r1 =>
    let inner := r1.takeWhile (fun c => c ≠ '>')
    if inner.isEmpty then none
    else
      match r1.drop inner.length with
      | '>' :: r2 => some r2
      | _ => none
  | _ => none

/-- `GENERIC_TAG_RE.replace_all(_, "")`. -/
def replaceGenericsGo : Nat → List Char → List Char
  | 0, l => l
  | _ + 1, [] => []
  | fuel + 1, c :: t =>
    match matchGenericAt (c :: t) with
    | some rest => replaceGenericsGo fuel rest
    | none => c :: replaceGenericsGo fuel t

/-- Source `clean_text` (parser.rs:243): normalize line breaks, map
fullwidth/no-break spaces to ASCII space, paragraph sub-tags to newlines,
strip other angle-bracket tags, substitute the nickname placeholder, trim,
and re-join trimmed nonempty sub-lines when newlines remain. -/
def clean_text (text : String) : String :=
  if text.data.isEmpty then ""
  else
    let c1 := replaceList text.data ['\\', 'r', '\\', 'n'] ['\n']
    let c2 := replaceList c1 ['\\', 'n'] ['\n']
    let c3 := replaceList c2 ['\r'] ['\n']
    let c4 := replaceList c3 [Char.ofNat 0x3000] [' ']
    let c5 := replaceList c4 [Char.ofNat 0xA0] [' ']
    let c6 := replaceParasGo c5.length c5
    let c7 := replaceGenericsGo c6.length c6
    let c8 := replaceList c7 "\x7b@nickname\x7d".data "博士".data
    let c9 := trimWsList c8
    if c9.contains '\n' then
      String.intercalate "\n"
        ((((splitOnPred (fun c => c = '\n') c9).map trimWsList).filter
          (fun l => !l.isEmpty)).map String.mk)
    else String.mk c9

/-- Source `has_meaningful_content` (parser.rs:271): nonempty after trim,
and not a ≤3-byte run of pure ASCII punctuation. -/
def has_meaningful_content (text : String) : Bool :=
  let trimmed := trimWsList text.data
  if trimmed.isEmpty then false
  else if utf8Len trimmed ≤ 3 && trimmed.all isAsciiPunct then false
  else true

/-- Well-known identifier prefixes stripped by `humanize_identifier`,
in source order (the first match wins). -/
def knownPrefixes : List (List Char) :=
  ["char_".data, "npc_".data, "avg_".data, "avatar_".data, "trap_".data,
   "voice_".data, "item_".data, "act_".data, "story_".data]

/-- Strip the first matching well-known prefix, if any. -/
def stripKnownPrefix (v : List Char) : List Char :=
  match knownPrefixes.find? (fun p => p.isPrefixOf v) with
  | some p => v.drop p.length
  | none => v

/-- Remove consecutive duplicates keeping the first of each run
(`Vec::dedup`), step function. -/
def dedupGo (prev : List Char) : List (List Char) → List (List Char)
  | [] => []
  | b :: t => if b = prev then dedupGo prev t else b :: dedupGo b t

/-- Remove consecutive duplicates keeping the first of each run. -/
def dedupConsec : List (List Char) → List (List Char)
  | [] => []
  | a :: t => a :: dedupGo a t

/-- Source `humanize_identifier` (parser.rs:329): trim, strip quotes and
leading `$`, strip one well-known prefix, split on `_`/`#`, drop blank and
purely numeric segments, title-case, de-duplicate consecutive segments,
join with spaces; if nothing remains return the trimmed raw input. -/
def humanize_identifier (raw : String) : String :=
  let value := (trimMatchesChar '"' (trimWsList raw.data)).dropWhile (fun c => c = '$')
  let value := stripKnownPrefix value
  let parts := (splitOnPred (fun c => c = '_' || c = '#') value).filter
    (fun part => !(trimWsList part).isEmpty && !(part.all isAsciiDigitC))
  let parts := parts.map (fun part =>
    match part with
    | [] => ([] : List Char)
    | first :: rest => toUpperChar first ++ rest)
  if parts.isEmpty then String.mk (trimWsList raw.data)
  else String.intercalate " " ((dedupConsec parts).map String.mk)

/-- Source `clean_dialog_head` (parser.rs:235). -/
def clean_dialog_head (raw : String) : String :=
  let trimmed := trimWsList raw.data
  if trimmed.isEmpty then "" else humanize_identifier (String.mk trimmed)

/-- Source `resolve_speaker` (parser.rs:304): cleaned `name` attribute,
else humanized `head`, else humanized `avatarid`, else none; each
candidate must pass the meaningful-content filter. -/
def resolve_speaker (attrs : List (String × String)) : Option String :=
  let fromHead :=
    match attrsGet attrs "head" with
    | some head =>
      let cleaned := humanize_identifier head
      if has_meaningful_content cleaned then some cleaned
      else
        match attrsGet attrs "avatarid" with
        | some avatar =>
          let c2 := humanize_identifier avatar
          if has_meaningful_content c2 then some c2 else none
        | none => none
    | none =>
      match attrsGet attrs "avatarid" with
      | some avatar =>
        let c2 := humanize_identifier avatar
        if has_meaningful_content c2 then some c2 else none
      | none => none
  match attrsGet attrs "name" with
  | some name =>
    let cleaned := clean_text name
    if has_meaningful_content cleaned then some cleaned else fromHead
  | none => fromHead

/-- Segment model (models.rs `StorySegment`); `position` and `values` are
carried in the type but the parser never sets them, mirroring the source
constructors. -/
inductive StorySegment where
  | dialogue (character_name text : String) (position : Option String)
  | narration (text : String)
  | decision (options values : List String)
  | system (speaker : Option String) (text : String)
  | subtitle (text : String) (alignment : Option String)
  | sticker (text : String) (alignment : Option String)
  | header (title : String)
deriving DecidableEq, Repr

/-- models.rs `ParsedStoryContent`. -/
structure ParsedStoryContent where
  segments : List StorySegment
deriving DecidableEq, Repr

/-- Source `parse_dialog_like` (parser.rs:284). -/
def parse_dialog_like (attrs : List (String × String)) (remainder : String) :
    Option StorySegment :=
  let text :=
    if remainder.data.isEmpty then
      ((attrsGet attrs "text").map clean_text).getD ""
    else clean_text remainder
  if !has_meaningful_content text then none
  else
    match resolve_speaker attrs with
    | some character_name => some (.dialogue character_name text none)
    | none => some (.narration text)

/-- Source `split_command_and_attrs` (parser.rs:198): the command name is
the leading run up to the first `(`, space or `=`; the rest, trimmed, is
the attribute source. -/
def split_command_and_attrs (inside : List Char) : String × Option (List Char) :=
  let inside := trimWsList inside
  if inside.isEmpty then ("", none)
  else
    let cmdChars := inside.takeWhile (fun c => !(c = '(' || c = ' ' || c = '='))
    let attrs :=
      if cmdChars.length < inside.length then some (trimWsList (inside.drop cmdChars.length))
      else none
    (String.mk cmdChars, attrs)

/-- Source `parse_command_line` (parser.rs:41): body between the first
`[` and the first `]`, remainder after it; dispatch on the lowercased
command name.  (Byte slicing in the source happens at the 1-byte
characters `[` and `]`, so character slicing is equivalent.) -/
def parse_command_line (line : String) : Option StorySegment :=
  match line.data.findIdx? (fun c => c = ']') with
  | none => none
  | some endi =>
    let inside := (line.data.drop 1).take (endi - 1)
    let remainder := String.mk (trimWsList (line.data.drop (endi + 1)))
    let sc := split_command_and_attrs inside
    let command := strAsciiLower sc.1
    let attrs := parse_attributes inside
    if command = "name" || command = "multiline" then
      match attrsGet attrs "name" with
      | none => none
      | some n =>
        let character_name := trimStr n
        let text := clean_text remainder
        if text.data.isEmpty then none
        else some (.dialogue character_name text none)
    else if command = "decision" then
      let options :=
        match attrsGet attrs "options" with
        | some raw_options =>
          ((splitOnPred (fun c => c = ';') raw_options.data).map
            (fun s => clean_text (String.mk s))).filter (fun s => !s.data.isEmpty)
        | none =>
          let target := sc.2.getD inside
          ((scanNumbered target).map clean_text).filter (fun s => !s.data.isEmpty)
      if options.isEmpty then none else some (.decision options [])
    else if command = "popupdialog" || command = "tutorial" then
      let text := clean_text remainder
      if text.data.isEmpty then none
      else
        let speaker := ((attrsGet attrs "dialoghead").map clean_dialog_head).filter
          (fun s => !s.data.isEmpty)
        some (.system speaker text)
    else if command = "subtitle" then
      match ((attrsGet attrs "text").map clean_text).filter (fun t => !t.data.isEmpty) with
      | none => none
      | some text => some (.subtitle text ((attrsGet attrs "alignment").map trimStr))
    else if command = "sticker" then
      match ((attrsGet attrs "text").map clean_text).filter (fun t => !t.data.isEmpty) with
      | none => none
      | some text => some (.sticker text ((attrsGet attrs "alignment").map trimStr))
    else if command = "header" then
      let title := clean_text remainder
      if title.data.isEmpty then none else some (.header title)
    else if command = "dialog" || command = "voicewithin" then
      parse_dialog_like attrs remainder
    else if command = "narration" then
      let text :=
        if remainder.data.isEmpty then ((attrsGet attrs "text").map clean_text).getD ""
        else clean_text remainder
      if !has_meaningful_content text then none else some (.narration text)
    else if command = "animtext" then
      let t1 := clean_text remainder
      let text :=
        if (trimWsList t1.data).isEmpty then ((attrsGet attrs "text").map clean_text).getD ""
        else t1
      let text := trimStr text
      if !has_meaningful_content text then none else some (.sticker text none)
    else if command = "title" then
      let title := clean_text remainder
      if !has_meaningful_content title then none else some (.header title)
    else if command = "div" then
      let text := clean_text remainder
      if !has_meaningful_content text then none else some (.subtitle text none)
    else if command = "avatarid" || command = "isavatarright" then
      let text := clean_text remainder
      if !has_meaningful_content text then none
      else some (.system (resolve_speaker attrs) text)
    else
      let text := clean_text remainder
      if !has_meaningful_content text then none else some (.narration text)

/-- Source `parse_story_text` (parser.rs:16): per line (split on `\n`,
trailing `\r` absorbed by the trim), skip blanks, parse command lines
(leading `[`), otherwise emit cleaned nonempty text as narration. -/
def parse_story_text (content : String) : ParsedStoryContent :=
  ⟨(splitOnPred (fun c => c = '\n') content.data).flatMap (fun raw_line =>
    let line := trimWsList raw_line
    if line.isEmpty then []
    else if line.head? = some '[' then
      match parse_command_line (String.mk line) with
      | some seg => [seg]
      | none => []
    else
      let text := clean_text (String.mk line)
      if text.data.isEmpty then [] else [.narration text])⟩

/-! ## Search orchestrator (data_service.rs) -/

/-- models.rs `StoryEntry` (the fields read by the search/index core; the
remaining unlock metadata fields are never consulted by the functions
verified here). -/
structure StoryEntry where
  story_id : String
  story_name : String
  story_code : Option String
  story_group : String
  story_sort : Int
  story_txt : String
deriving DecidableEq, Repr

/-- data_service.rs `IndexedStory`. -/
structure IndexedStory where
  category_name : String
  entry_type : String
  story : StoryEntry
deriving DecidableEq, Repr

/-- models.rs `SearchResult`. -/
structure SearchResult where
  story_id : String
  story_name : String
  matched_text : String
  category : String
deriving DecidableEq, Repr

/-- models.rs `SearchDebugResponse`. -/
structure SearchDebugResponse where
  results : List SearchResult
  logs : List String
deriving DecidableEq, Repr

deriving instance DecidableEq for Except

/-- Source `SEARCH_RESULT_LIMIT` (data_service.rs:31). -/
def SEARCH_RESULT_LIMIT : Nat := 500

/-- One persisted row of the `story_index` FTS5 table. -/
structure IndexRow where
  story_id : String
  story_name : String
  category : String
  tokenized_content : String
  story_code : String
  raw_content : String
deriving DecidableEq, Repr

/-- Abstract state of an opened `story_index` database.  `rows` is the
table contents (`SELECT COUNT(*)` is its length); `matchRank` models the
FTS5 engine: for a compiled MATCH expression it yields the matching rows
in ascending bm25 order together with their `snippet()` values — the
`LIMIT` clause is applied by the orchestrator model below, as in the
SQL. -/
structure FtsIndex where
  rows : List IndexRow
  matchRank : String → List (IndexRow × String)

/-- Abstract state of the `DataService`.  `installed` is
`is_installed()`; `openResult` models `try_open_index_connection`
(`none` covers both a missing database file and a failed open, which the
source folds together); `initError`/`execError` model the failure
channels of `init_index_tables` and of preparing/executing the SQL
query; `collectRest` is the story-review JSON walk performed by
`collect_stories_for_index` after its NOT_INSTALLED guard, and
`readStory` is `read_story_text` — both are out-of-scope ETL in the
specification and are therefore abstract.  The remaining `…Rest` fields
abstract the bodies of the indexing and grouped-listing operations after
their guards, plus the debug variant's elapsed-time readings. -/
structure DataService where
  installed : Bool
  openResult : Option FtsIndex
  initError : Option String
  execError : Option String
  collectRest : Except String (List IndexedStory)
  readStory : String → Except String String
  rebuildRest : Except String Unit
  mainRest : Except String (List (String × List StoryEntry))
  activityRest : Except String (List (String × List StoryEntry))
  sidestoryRest : Except String (List (String × List StoryEntry))
  roguelikeRest : Except String (List (String × List StoryEntry))
  recordRest : Except String (List (String × List StoryEntry))
  runeRest : Except String (List StoryEntry)
  memoryRest : Except String (List StoryEntry)
  msIndex : Nat
  msFallback : Nat
  msTotal : Nat

/-- Source `entry_type_display` (data_service.rs:352). -/
def entry_type_display (entry_type : String) : String :=
  if entry_type = "MAINLINE" then "主线"
  else if entry_type = "ACTIVITY" || entry_type = "MINI_ACTIVITY" then "活动"
  else if entry_type = "ROGUELIKE" then "肉鸽"
  else if entry_type = "SIDESTORY" then "支线"
  else if entry_type = "NONE" then "干员密录"
  else if entry_type = "RECORD" then "主线笔记"
  else if entry_type = "RUNE" then "危机合约"
  else entry_type

/-- Source `format_category_label` (data_service.rs:383). -/
def format_category_label (entry_type category_name : String) : String :=
  let pre := entry_type_display entry_type
  let name := trimStr category_name
  if name.data.isEmpty || name = pre then pre else pre ++ " | " ++ name

/-- Source `collect_stories_for_index` (data_service.rs:393): the
NOT_INSTALLED guard precedes every read; the JSON walk after it is the
abstract `collectRest`. -/
def collect_stories_for_index (sv : DataService) : Except String (List IndexedStory) :=
  if !sv.installed then .error "NOT_INSTALLED" else sv.collectRest

/-- Source `rebuild_story_index` (data_service.rs:1407): the
NOT_INSTALLED guard precedes opening the index connection; the rebuild
transaction after it is abstract. -/
def rebuild_story_index (sv : DataService) : Except String Unit :=
  if !sv.installed then .error "NOT_INSTALLED" else sv.rebuildRest

/-- Source `get_main_stories_grouped` (data_service.rs:1952). -/
def get_main_stories_grouped (sv : DataService) :
    Except String (List (String × List StoryEntry)) :=
  if !sv.installed then .error "NOT_INSTALLED" else sv.mainRest

/-- Source `get_activity_stories_grouped` (data_service.rs:2004). -/
def get_activity_stories_grouped (sv : DataService) :
    Except String (List (String × List StoryEntry)) :=
  if !sv.installed then .error "NOT_INSTALLED" else sv.activityRest

/-- Source `get_sidestory_stories_grouped` (data_service.rs:2081). -/
def get_sidestory_stories_grouped (sv : DataService) :
    Except String (List (String × List StoryEntry)) :=
  if !sv.installed then .error "NOT_INSTALLED" else sv.sidestoryRest

/-- Source `get_roguelike_stories_grouped` (data_service.rs:2134). -/
def get_roguelike_stories_grouped (sv : DataService) :
    Except String (List (String × List StoryEntry)) :=
  if !sv.installed then .error "NOT_INSTALLED" else sv.roguelikeRest

/-- Source `get_record_stories_grouped` (data_service.rs:2559). -/
def get_record_stories_grouped (sv : DataService) :
    Except String (List (String × List StoryEntry)) :=
  if !sv.installed then .error "NOT_INSTALLED" else sv.recordRest

/-- Source `get_rune_stories` (data_service.rs:2694). -/
def get_rune_stories (sv : DataService) : Except String (List StoryEntry) :=
  if !sv.installed then .error "NOT_INSTALLED" else sv.runeRest

/-- Source `get_memory_stories` (data_service.rs:2539). -/
def get_memory_stories (sv : DataService) : Except String (List StoryEntry) :=
  if !sv.installed then .error "NOT_INSTALLED" else sv.memoryRest

/-- Rust `str::contains(&str)` over character lists (UTF-8 substring
occurrences always fall on character boundaries). -/
def strContainsGo (pat : List Char) : List Char → Bool
  | [] => pat.isEmpty
  | c :: t => pat.isPrefixOf (c :: t) || strContainsGo pat t

/-- Rust `str::contains(&str)`. -/
def strContains (l pat : List Char) : Bool :=
  strContainsGo pat l

/-- Rust `str::find(&str)`: first byte offset of the substring. -/
def byteFindGo (pat : List Char) : List Char → Nat → Option Nat
  | [], acc => if pat.isEmpty then some acc else none
  | c :: t, acc =>
    if pat.isPrefixOf (c :: t) then some acc else byteFindGo pat t (acc + utf8SizeC c)

/-- Rust `str::find(&str)`. -/
def byteFind (l pat : List Char) : Option Nat :=
  byteFindGo pat l 0

/-- Rust `str::get(..n)`: the character prefix of byte length `n`, `none`
when `n` is not a character boundary or exceeds the length. -/
def takeBytes : List Char → Nat → Option (List Char)
  | _, 0 => some []
  | [], _ + 1 => none
  | c :: t, n + 1 =>
    if utf8SizeC c ≤ n + 1 then (takeBytes t (n + 1 - utf8SizeC c)).map (fun r => c :: r)
    else none

/-- Byte-indexed slice `str::get(a..b)` (with `a ≤ b`). -/
def sliceBytes (l : List Char) (a b : Nat) : Option (List Char) :=
  match takeBytes l a with
  | none => none
  | some pre => takeBytes (l.drop pre.length) (b - a)

/-- Rust `str::split_whitespace`: maximal nonempty runs between
White_Space characters. -/
def splitWhitespaceList (l : List Char) : List (List Char) :=
  (splitOnPred rustIsWhitespace l).filter (fun p => !p.isEmpty)

/-- Source `build_context_snippet` (data_service.rs:1920): convert the
byte offset found in the normalized text to a character index, then slice
the original content with a 50-character window on each side. -/
def build_context_snippet (content : String) (byte_start pattern_bytes : Nat) : String :=
  match takeBytes content.data byte_start with
  | none => ""
  | some pre =>
    let byte_end := min (byte_start + pattern_bytes) (utf8Len content.data)
    let matched_slice := (sliceBytes content.data byte_start byte_end).getD []
    let start_char_index := pre.length
    let matched_char_len := matched_slice.length
    let chars := content.data
    if chars.isEmpty then ""
    else
      let window := 50
      let snippet_start := start_char_index - window
      let snippet_end := min (start_char_index + matched_char_len + window) chars.length
      let snippet := (chars.drop snippet_start).take (snippet_end - snippet_start)
      if snippet.isEmpty then ""
      else "..." ++ String.mk (trimWsList snippet) ++ "..."

/-- Source `extract_context` (data_service.rs:1900): find the query (or,
failing that, one of its whitespace-separated tokens) in the normalized
content and build a snippet around the match. -/
def extract_context (content query : String) : String :=
  if content.data.isEmpty || query.data.isEmpty then ""
  else
    let content_lower := normalize_nfkc_lower_strip_marks content
    match byteFind content_lower.data query.data with
    | some pos => build_context_snippet content pos (utf8Len query.data)
    | none =>
      let rec firstTok : List (List Char) → String
        | [] => ""
        | tok :: rest =>
          match byteFind content_lower.data tok with
          | some pos => build_context_snippet content pos (utf8Len tok)
          | none => firstTok rest
      firstTok (splitWhitespaceList query.data)

/-- Rust `str::to_lowercase` (per-character on this fragment; the Greek
final-sigma special case involves no character of this development). -/
def strToLowercase (s : String) : String :=
  String.mk (s.data.flatMap toLowerChar)

/-- Row-to-result mapping of the index query loop
(data_service.rs:1595–1624): context from the raw content, falling back
to a cleaned `snippet()` value, then to a 120-character preview. -/
def indexRowResult (row : IndexRow) (snip : String) (query_lower : String) : SearchResult :=
  let m1 := extract_context row.raw_content query_lower
  let m2 :=
    if (trimWsList m1.data).isEmpty && !(trimWsList snip.data).isEmpty then
      String.mk (replaceList (replaceList (replaceList snip.data ['\n'] [' '])
        ['\r'] [' ']) [' ', ' '] [' '])
    else m1
  let m3 :=
    if m2.data.isEmpty then
      let preview := row.raw_content.data.take 120
      if utf8Len preview < utf8Len row.raw_content.data then
        String.mk preview ++ "..."
      else String.mk preview
    else m2
  ⟨row.story_id, row.story_name, m3, row.category⟩

/-- Source `search_stories_with_index` (data_service.rs:1550): `ok none`
when no index is available or it is empty, `ok (some [])` when the query
compiles to nothing, otherwise the ranked MATCH rows capped by the SQL
LIMIT and mapped to results. -/
def search_stories_with_index (sv : DataService) (query : String) :
    Except String (Option (List SearchResult)) :=
  match sv.openResult with
  | none => .ok none
  | some idx =>
    match sv.initError with
    | some e => .error e
    | none =>
      if idx.rows.length = 0 then .ok none
      else
        match build_fts_query_advanced query with
        | none => .ok (some [])
        | some fts_query =>
          match sv.execError with
          | some e => .error e
          | none =>
            let query_lower := strToLowercase query
            .ok (some (((idx.matchRank fts_query).take SEARCH_RESULT_LIMIT).map
              (fun rs => indexRowResult rs.1 rs.2 query_lower)))

/-- Loop of `search_stories_fallback` (data_service.rs:1635–1670): match
the normalized name, else the normalized script body; stop as soon as
the result cap is reached. -/
def fallbackLoop (sv : DataService) (query_norm : String) :
    List IndexedStory → List SearchResult → List SearchResult
  | [], acc => acc
  | indexed :: rest, acc =>
    let story := indexed.story
    let category_label := format_category_label indexed.entry_type indexed.category_name
    let story_name_norm := normalize_nfkc_lower_strip_marks story.story_name
    if strContains story_name_norm.data query_norm.data then
      let acc2 := acc ++ [⟨story.story_id, story.story_name, story.story_name, category_label⟩]
      if SEARCH_RESULT_LIMIT ≤ acc2.length then acc2
      else fallbackLoop sv query_norm rest acc2
    else
      match sv.readStory story.story_txt with
      | .ok content =>
        let content_norm := normalize_nfkc_lower_strip_marks content
        if strContains content_norm.data query_norm.data then
          let matched_text := extract_context content query_norm
          let acc2 := acc ++ [⟨story.story_id, story.story_name, matched_text, category_label⟩]
          if SEARCH_RESULT_LIMIT ≤ acc2.length then acc2
          else fallbackLoop sv query_norm rest acc2
        else fallbackLoop sv query_norm rest acc
      | .error _ => fallbackLoop sv query_norm rest acc

/-- Source `search_stories_fallback` (data_service.rs:1629). -/
def search_stories_fallback (sv : DataService) (query : String) :
    Except String (List SearchResult) :=
  let query_norm := normalize_nfkc_lower_strip_marks query
  (collect_stories_for_index sv).map (fun stories => fallbackLoop sv query_norm stories [])

/-- Merge loop shared by `search_stories` (data_service.rs:1702–1709) and
the two loops of `search_stories_with_debug` (1780–1799): push results
whose `story_id` was not seen, stopping after the push that reaches the
cap.  Returns the accumulated results and the grown seen set. -/
def mergeLoop : List SearchResult → List String → List SearchResult →
    List SearchResult × List String
  | [], seen, acc => (acc, seen)
  | r :: rest, seen, acc =>
    if seen.contains r.story_id then mergeLoop rest seen acc
    else
      let acc2 := acc ++ [r]
      let seen2 := r.story_id :: seen
      if SEARCH_RESULT_LIMIT ≤ acc2.length then (acc2, seen2)
      else mergeLoop rest seen2 acc2

/-- Source `search_stories` (data_service.rs:1676): index path first (its
failure downgraded to an empty contribution), then the fallback scan
appended with de-duplication by `story_id`. -/
def search_stories (sv : DataService) (query : String) :
    Except String (List SearchResult) :=
  let tr := trimStr query
  if tr.data.isEmpty then .ok []
  else
    let combined : List SearchResult :=
      match search_stories_with_index sv tr with
      | .ok (some results) => results
      | .ok none => []
      | .error _ => []
    let seen := combined.map (fun r => r.story_id)
    (search_stories_fallback sv tr).map (fun fb => (mergeLoop fb seen combined).1)

/-- Source `search_stories_with_debug` (data_service.rs:1714): the same
search with human-readable trace lines; elapsed milliseconds come from
the abstract clock fields.  The merge de-duplicates the index results
from an empty seen set, then appends fallback results only while below
the cap. -/
def search_stories_with_debug (sv : DataService) (query : String) :
    Except String SearchDebugResponse :=
  let tr := trimStr query
  if tr.data.isEmpty then .ok ⟨[], ["查询为空，直接返回"]⟩
  else
    let logs0 := ["开始搜索: \"" ++ tr ++ "\""]
    let normalized := normalize_nfkc_lower_strip_marks tr
    let logs1 := logs0 ++ ["规范化后的查询: \"" ++ normalized ++ "\""]
    let logs2 := logs1 ++
      (match build_fts_query_advanced tr with
       | some preview => ["FTS 查询: " ++ preview]
       | none => ["FTS 查询为空（可能仅包含标点或无效字符）"])
    let indexed := search_stories_with_index sv tr
    let index_results : List SearchResult :=
      match indexed with
      | .ok (some results) => results
      | _ => []
    let logs3 := logs2 ++
      (match indexed with
       | .ok (some results) =>
         ["全文索引查询完成，耗时 " ++ toString sv.msIndex ++ " ms，结果 " ++
           toString results.length ++ " 条"]
       | .ok none =>
         ["全文索引不可用或未建立，耗时 " ++ toString sv.msIndex ++ " ms"]
       | .error err =>
         ["全文索引查询失败: " ++ err ++ " (耗时 " ++ toString sv.msIndex ++
           " ms)，将回退线性扫描"])
    (search_stories_fallback sv tr).map (fun fallback_results =>
      let logs4 := logs3 ++
        ["线性扫描完成，耗时 " ++ toString sv.msFallback ++ " ms，结果 " ++
          toString fallback_results.length ++ " 条"]
      let logs5 := logs4 ++
        (if SEARCH_RESULT_LIMIT ≤ fallback_results.length then
          ["结果数量达到上限 " ++ toString SEARCH_RESULT_LIMIT ++ " 条，建议缩小检索范围"]
         else [])
      let m := mergeLoop index_results [] []
      let merged :=
        if m.1.length < SEARCH_RESULT_LIMIT then (mergeLoop fallback_results m.2 m.1).1
        else m.1
      let added := merged.length - m.1.length
      let logs6 := logs5 ++
        (if 0 < added then ["线性扫描补全 " ++ toString added ++ " 条结果"] else [])
      let logs7 := logs6 ++ ["搜索总耗时 " ++ toString sv.msTotal ++ " ms"]
      ⟨merged, logs7⟩)

/-- The three-character probe L-jamo, combining acute, V-jamo: the mark
blocks the jamo pair on the first pass, is then stripped, and only a
second normalize composes the now-adjacent pair into a syllable. -/
def hangulJamoProbe : String :=
  String.mk [Char.ofNat 0x1100, Char.ofNat 0x301, Char.ofNat 0x1161]

/-- The Hangul-free probe U+09C7, combining acute, U+09BE: the mark
blocks the Bengali two-part-vowel composition on the first pass and is
then stripped, and only a second normalize composes the now-adjacent
pair into U+09CB through the composition table. -/
def bengaliProbe : String :=
  String.mk [Char.ofNat 0x9C7, Char.ofNat 0x301, Char.ofNat 0x9BE]

/-- The trimmed free text after the closing bracket of a command line,
as computed inside `parse_command_line` (empty when no bracket closes). -/
def commandRemainder (line : String) : String :=
  match line.data.findIdx? (fun c => c = ']') with
  | some endi => String.mk (trimWsList (line.data.drop (endi + 1)))
  | none => ""

/-! ## Concrete service fixtures used by witnesses and counterexamples -/

/-- A service state with everything absent or failing; fixtures override
individual fields. -/
def baseService : DataService :=
  { installed := true, openResult := none, initError := none, execError := none,
    collectRest := .ok [], readStory := fun _ => .error "missing",
    rebuildRest := .ok (), mainRest := .ok [], activityRest := .ok [],
    sidestoryRest := .ok [], roguelikeRest := .ok [], recordRest := .ok [],
    runeRest := .ok [], memoryRest := .ok [], msIndex := 0, msFallback := 0,
    msTotal := 0 }

/-- Service state before any content has been installed. -/
def svNotInstalled : DataService :=
  { baseService with installed := false }

/-- Story metadata fixture (unused metadata fields defaulted). -/
def mkStoryEntry (id nm : String) : StoryEntry :=
  ⟨id, nm, none, "", 0, "p"⟩

/-- Indexed-story fixture with empty category and entry type. -/
def mkIndexedStory (id nm : String) : IndexedStory :=
  ⟨"", "", mkStoryEntry id nm⟩

/-- Index-row fixture named z with empty display columns. -/
def mkIndexRow (id : String) : IndexRow :=
  ⟨id, "z", "", "", "", ""⟩

/-- One-character story id from the CJK plane, pairwise distinct for
small indices. -/
def cjkId (i : Nat) : String := String.mk [Char.ofNat (0x4E00 + i)]

/-- 500 index rows with pairwise distinct one-character story ids. -/
def bigRows : List IndexRow :=
  (List.range 500).map (fun i => mkIndexRow (cjkId i))

/-- The opened index of the 500-row corpus: the engine matches every
row. -/
def bigIdx : FtsIndex := ⟨bigRows, fun _ => bigRows.map (fun r => (r, ""))⟩

/-- Corpus whose index path matches exactly 500 rows while the fallback
scan matches one further story id. -/
def svBig : DataService :=
  { baseService with
    openResult := some bigIdx,
    collectRest := .ok [mkIndexedStory "x" "z"] }

/-- The index-path results of svBig for query z. -/
def bigResults : List SearchResult :=
  bigRows.map (fun r => indexRowResult r "" (strToLowercase (trimStr "z")))

/-- The single fallback result of svBig for query z. -/
def fxBig : SearchResult := ⟨"x", "z", "z", ""⟩

/-- 499 index rows with pairwise distinct one-character story ids. -/
def wideRows : List IndexRow :=
  (List.range 499).map (fun i => mkIndexRow (cjkId i))

/-- The opened index of the 499-row corpus. -/
def wideIdx : FtsIndex := ⟨wideRows, fun _ => wideRows.map (fun r => (r, ""))⟩

/-- Corpus with 499 index matches and two further fallback matches, so
the combined distinct matches exceed the cap while the index path stays
below it. -/
def svWide : DataService :=
  { baseService with
    openResult := some wideIdx,
    collectRest := .ok [mkIndexedStory "x" "z", mkIndexedStory "y" "z"] }

/-- The index-path results of svWide for query z. -/
def wideIResults : List SearchResult :=
  wideRows.map (fun r => indexRowResult r "" (strToLowercase (trimStr "z")))

/-- The fallback-scan results of svWide for query z. -/
def wideFb : List SearchResult := [⟨"x", "z", "z", ""⟩, ⟨"y", "z", "z", ""⟩]

/-- The merged result of svWide for query z: the 499 index results plus
the first fresh fallback result, filling the cap exactly. -/
def wideMerged : List SearchResult := wideIResults ++ [⟨"x", "z", "z", ""⟩]

/-- One-row index fixture shared by the small-corpus service. -/
def smallRow : IndexRow := ⟨"a", "z", "c", "", "", ""⟩

/-- Small corpus: the index matches story a, the fallback scan matches
both a (duplicate) and b. -/
def svSmall : DataService :=
  { baseService with
    openResult := some ⟨[smallRow], fun _ => [(smallRow, "")]⟩,
    collectRest := .ok [mkIndexedStory "a" "z", mkIndexedStory "b" "z"] }

/-- The index-path result of svSmall for query z. -/
def ISmall : List SearchResult := [⟨"a", "z", "", "c"⟩]

/-- The fallback-scan result of svSmall for query z. -/
def fbSmall : List SearchResult := [⟨"a", "z", "z", ""⟩, ⟨"b", "z", "z", ""⟩]

/-- The merged result of svSmall for query z. -/
def resSmall : List SearchResult :=
  match search_stories svSmall "z" with
  | .ok r => r
  | .error _ => []

/-- The debug response of svSmall for query z. -/
def dresSmall : SearchDebugResponse :=
  match search_stories_with_debug svSmall "z" with
  | .ok r => r
  | .error _ => ⟨[], []⟩

/-- Nonempty index whose engine matches nothing, for the compile-to-none
service. -/
def idxC3 : FtsIndex := ⟨[mkIndexRow "r"], fun _ => []⟩

/-- Service with a nonempty index and one story whose name contains a
hyphen; the query "-" compiles to none yet the fallback matches. -/
def svC3 : DataService :=
  { baseService with
    openResult := some idxC3,
    collectRest := .ok [mkIndexedStory "a" "x-y"] }

/-- The fallback-scan result of svC3 for query "-". -/
def fbC3 : List SearchResult := [⟨"a", "x-y", "x-y", ""⟩]

/-! ## Character-table facts -/

theorem lookup_mem_lowerPairs {a d : Char} (h : lowerPairs.lookup a = some d) :
    (a, d) ∈ lowerPairs := by
  have : ∀ l : List (Char × Char), l.lookup a = some d → (a, d) ∈ l := by
    intro l
    induction l with
    | nil => intro h2; simp [List.lookup] at h2
    | cons p t ih =>
      intro h2
      rw [List.lookup] at h2
      by_cases he : a = p.1
      · subst he
        simp at h2
        subst h2
        exact List.mem_cons_self _ _
      · have hbeq : (a == p.1) = false := beq_false_of_ne he
        rw [hbeq] at h2
        exact List.mem_cons_of_mem _ (ih h2)
  exact this lowerPairs h

theorem upper_in_lowerPairs {c : Char} (h65 : 65 ≤ c.toNat) (h90 : c.toNat ≤ 90) :
    (lowerPairs.lookup c).isSome := by
  have hofn := Char.ofNat_toNat c
  set n := c.toNat with hn
  interval_cases n <;>
    (first
      | (rw [← hofn]; decide))

theorem toLowerChar_image_ok {a c : Char} (h : c ∈ toLowerChar a) :
    toLowerChar c = [c] ∧ toAsciiLower c = c := by
  have notUpper : ∀ d : Char, (lowerPairs.lookup d).isSome = false →
      toLowerChar d = [d] ∧ toAsciiLower d = d := by
    intro d hd
    constructor
    · unfold toLowerChar
      cases hl : lowerPairs.lookup d with
      | none => rfl
      | some x => rw [hl] at hd; simp at hd
    · unfold toAsciiLower
      by_cases hrange : 0x41 ≤ d.toNat ∧ d.toNat ≤ 0x5A
      · have := upper_in_lowerPairs hrange.1 hrange.2
        rw [this] at hd
        simp at hd
      · have hc : (decide (0x41 ≤ d.toNat) && decide (d.toNat ≤ 0x5A)) = false := by
          rcases Decidable.not_and_iff_or_not.mp hrange with h1 | h1 <;> simp [h1]
        simp [hc]
  unfold toLowerChar at h
  cases hl : lowerPairs.lookup a with
  | none =>
    rw [hl] at h
    simp at h
    subst h
    apply notUpper
    rw [hl]
    rfl
  | some d =>
    rw [hl] at h
    simp at h
    subst h
    have hmem := lookup_mem_lowerPairs hl
    have hok : ∀ p ∈ lowerPairs, toLowerChar p.2 = [p.2] ∧ toAsciiLower p.2 = p.2 := by decide
    exact hok _ hmem

theorem normalize_chars_stable {x : String} {c : Char}
    (h : c ∈ (normalize_nfkc_lower_strip_marks x).data) :
    toLowerChar c = [c] ∧ toAsciiLower c = c := by
  unfold normalize_nfkc_lower_strip_marks at h
  simp only [List.mem_filter] at h
  obtain ⟨hmem, -⟩ := h
  rcases List.mem_flatMap.mp hmem with ⟨a, -, hc⟩
  exact toLowerChar_image_ok hc

theorem normalize_chars_ccc {x : String} {c : Char}
    (h : c ∈ (normalize_nfkc_lower_strip_marks x).data) : cccOf c = 0 := by
  unfold normalize_nfkc_lower_strip_marks at h
  simp only [List.mem_filter] at h
  exact of_decide_eq_true h.2

/-! ## Theorems for the query-compiler claim -/

theorem cjk_not_quote {c : Char} (h : is_cjk c = true) : ¬(c = '"') := by
  intro he
  subst he
  simp [is_cjk] at h

theorem asciiAlnum_not_cjk {c : Char} (h : isAsciiAlnum c = true) : is_cjk c = false := by
  cases hb : is_cjk c with
  | false => rfl
  | true =>
    exfalso
    unfold is_cjk at hb
    unfold isAsciiAlnum at h
    simp only [Bool.or_eq_true, Bool.and_eq_true, decide_eq_true_eq] at hb h
    omega

/-- C6: the query compiler maps 苦艾 to the quoted phrase of its two
space-separated characters and abc to abc*; a term with CJK content all
of whose non-whitespace characters are CJK ideographs becomes a quoted
space-separated per-character phrase, and an all-ASCII-alphanumeric term
gets a trailing wildcard. -/
theorem C6_query_compiler :
    build_fts_query_advanced "苦艾" = some "\"苦 艾\"" ∧
    build_fts_query_advanced "abc" = some "abc*" ∧
    (∀ s : String, (∃ c ∈ s.data, is_cjk c = true) →
      (∀ c ∈ s.data, is_cjk c = true ∨ rustIsWhitespace c = true) →
      to_phrase_if_cjk s = "\"" ++ String.intercalate " "
        ((s.data.filter (fun c => !rustIsWhitespace c)).map (fun c => String.mk [c])) ++ "\"") ∧
    (∀ s : String, (∀ c ∈ s.data, isAsciiAlnum c = true) →
      to_phrase_if_cjk s = s ++ "*") := by
  refine ⟨by decide, by decide, ?_, ?_⟩
  · intro s hex hall
    unfold to_phrase_if_cjk
    have hhas : s.data.any is_cjk = true := by
      rcases hex with ⟨c, hc, hcjk⟩
      exact List.any_eq_true.mpr ⟨c, hc, hcjk⟩
    have hallb : s.data.all (fun ch => is_cjk ch || rustIsWhitespace ch) = true := by
      apply List.all_eq_true.mpr
      intro c hc
      rcases hall c hc with h | h <;> simp [h]
    simp only [hhas, hallb, Bool.and_self, if_true]
    have hmap : (s.data.filter (fun c => !rustIsWhitespace c)).map
        (fun c => if c = '"' then ' ' else c) =
        s.data.filter (fun c => !rustIsWhitespace c) := by
      have : ∀ c ∈ s.data.filter (fun c => !rustIsWhitespace c),
          (if c = '"' then ' ' else c) = c := by
        intro c hc
        rcases List.mem_filter.mp hc with ⟨hmem, hnw⟩
        rcases hall c hmem with hcjk | hws
        · rw [if_neg (cjk_not_quote hcjk)]
        · simp [hws] at hnw
      rw [List.map_congr_left this]
      simp
    rw [hmap]
  · intro s hall
    unfold to_phrase_if_cjk
    have hany : s.data.any is_cjk = false := by
      rw [List.any_eq_false]
      intro c hc
      simp [asciiAlnum_not_cjk (hall c hc)]
    have hallb : s.data.all isAsciiAlnum = true := List.all_eq_true.mpr hall
    simp [hany, hallb]

/-- C6 witness: the general clauses instantiated at concrete terms. -/
theorem C6_query_compiler_witness :
    to_phrase_if_cjk "苦艾" = "\"苦 艾\"" ∧ to_phrase_if_cjk "abc" = "abc*" := by
  constructor
  · have h := C6_query_compiler.2.2.1 "苦艾" ⟨'苦', by decide, by decide⟩ (by decide)
    exact h.trans (by decide)
  · exact C6_query_compiler.2.2.2 "abc" (by decide)

/-! ## Theorems for the speaker-humanization claim -/

/-- C10: when, after stripping leading dollar signs and one well-known
prefix, every underscore/hash-separated segment is empty or purely
numeric, `humanize_identifier` falls back to the trimmed raw identifier;
in particular the attribute head="char_123" resolves to the speaker
char_123. -/
theorem C10_humanize_fallback :
    (∀ raw : String,
      (∀ part ∈ splitOnPred (fun c => c = '_' || c = '#')
          (stripKnownPrefix
            ((trimMatchesChar '"' (trimWsList raw.data)).dropWhile (fun c => c = '$'))),
        part = [] ∨ part.all isAsciiDigitC = true) →
      humanize_identifier raw = String.mk (trimWsList raw.data)) ∧
    resolve_speaker [("head", "char_123")] = some "char_123" := by
  constructor
  · intro raw hparts
    unfold humanize_identifier
    have hfilter : (splitOnPred (fun c => c = '_' || c = '#')
        (stripKnownPrefix
          ((trimMatchesChar '"' (trimWsList raw.data)).dropWhile (fun c => c = '$')))).filter
        (fun part => !(trimWsList part).isEmpty && !(part.all isAsciiDigitC)) = [] := by
      apply List.filter_eq_nil_iff.mpr
      intro part hmem
      rcases hparts part hmem with h | h
      · subst h
        decide
      · simp [h]
    simp only [hfilter, List.map_nil, List.isEmpty_nil, if_true]
  · decide

/-- C10 witness: the fallback instantiated at char_123. -/
theorem C10_humanize_fallback_witness :
    humanize_identifier "char_123" = "char_123" := by
  have h := C10_humanize_fallback.1 "char_123" (by decide)
  exact h.trans (by decide)

/-! ## Theorems for the tokenizer-coverage claim -/

theorem asciiAlnum_not_ws {c : Char} (h : isAsciiAlnum c = true) :
    rustIsWhitespace c = false := by
  cases hb : rustIsWhitespace c with
  | false => rfl
  | true =>
    exfalso
    unfold rustIsWhitespace at hb
    unfold isAsciiAlnum at h
    simp only [Bool.or_eq_true, Bool.and_eq_true, decide_eq_true_eq] at hb h
    omega

theorem mem_of_contains {c : Char} {l : List Char} (h : l.contains c = true) : c ∈ l := by
  simpa using h

theorem asciiAlnum_not_punct {c : Char} (h : isAsciiAlnum c = true) :
    is_common_punctuation c = false := by
  have hle : c.toNat ≤ 0x7A := by
    unfold isAsciiAlnum at h
    simp only [Bool.or_eq_true, Bool.and_eq_true, decide_eq_true_eq] at h
    omega
  unfold is_common_punctuation
  have hap : isAsciiPunct c = false := by
    cases hb : isAsciiPunct c with
    | false => rfl
    | true =>
      exfalso
      unfold isAsciiPunct at hb
      unfold isAsciiAlnum at h
      simp only [Bool.or_eq_true, Bool.and_eq_true, decide_eq_true_eq] at hb h
      omega
  rw [hap]
  simp only [Bool.false_eq_true, if_false]
  cases hb : List.contains _ c with
  | false => rfl
  | true =>
    exfalso
    have hmem := mem_of_contains hb
    have hbig : ∀ p ∈ ['，', '、', '。', '！', '？', '：', '；', '（', '）', '【', '】',
        '「', '」', '『', '』', '《', '》', '〈', '〉', '—', '～', '…', '·',
        '﹑', '﹔', '﹗', '﹖', '﹐', '﹒', '﹕', '︰'], 0x7A < p.toNat := by decide
    have := hbig c hmem
    omega

theorem flush_flatten (buf : List Char) :
    (((if buf.isEmpty then ([] : List String) else [String.mk buf])).map String.data).flatten
      = buf := by
  by_cases hb : buf.isEmpty
  · rw [if_pos hb]
    simp_all [List.isEmpty_iff]
  · rw [if_neg hb]
    simp

theorem tokenizeLoop_flatten : ∀ (l buf : List Char),
    (∀ c ∈ l, toLowerChar c = [c] ∧ toAsciiLower c = c) →
    ((tokenizeLoop l buf).map String.data).flatten =
      buf ++ l.filter (fun c => !rustIsWhitespace c && !is_common_punctuation c) := by
  intro l
  induction l with
  | nil =>
    intro buf _
    simp only [tokenizeLoop, List.filter_nil, List.append_nil]
    exact flush_flatten buf
  | cons c cs ih =>
    intro buf hstable
    have hc := hstable c (List.mem_cons_self c cs)
    have hcs : ∀ d ∈ cs, toLowerChar d = [d] ∧ toAsciiLower d = d :=
      fun d hd => hstable d (List.mem_cons_of_mem c hd)
    simp only [tokenizeLoop]
    by_cases halnum : isAsciiAlnum c = true
    · simp only [halnum, if_true]
      rw [ih (buf ++ [toAsciiLower c]) hcs, hc.2]
      rw [List.filter_cons_of_pos
        (by simp [asciiAlnum_not_ws halnum, asciiAlnum_not_punct halnum])]
      simp
    · simp only [halnum, Bool.false_eq_true, if_false]
      by_cases hws : rustIsWhitespace c = true
      · simp only [hws, if_true, List.map_append, List.flatten_append]
        rw [flush_flatten buf, ih [] hcs]
        rw [List.filter_cons_of_neg (by simp [hws])]
        simp
      · simp only [hws, Bool.false_eq_true, if_false]
        have hfilterc : (!rustIsWhitespace c && !is_common_punctuation c) =
            !is_common_punctuation c := by
          simp [hws]
        by_cases hpunct : is_common_punctuation c = true
        · simp only [hpunct, if_true, List.map_append, List.flatten_append]
          rw [flush_flatten buf, ih [] hcs]
          rw [List.filter_cons_of_neg (by simp [hpunct])]
          simp
        · simp only [hpunct, Bool.false_eq_true, if_false]
          have hkeep : (!rustIsWhitespace c && !is_common_punctuation c) = true := by
            simp [hws, hpunct]
          have hstep : List.filter (fun d => !rustIsWhitespace d && !is_common_punctuation d)
              (c :: cs) =
              c :: List.filter (fun d => !rustIsWhitespace d && !is_common_punctuation d) cs := by
            simp [List.filter_cons, hkeep]
          by_cases halpha : rustIsAlphanumeric c = true
          · simp only [halpha, if_true, hc.1, List.isEmpty_cons, Bool.false_eq_true,
              if_false, List.map_append, List.flatten_append]
            rw [flush_flatten buf, hstep, ih [] hcs]
            simp
          · simp only [halpha, Bool.false_eq_true, if_false, List.map_append,
              List.flatten_append]
            rw [flush_flatten buf, hstep, ih [] hcs]
            simp

/-- C8: concatenating the tokenizer's tokens reconstructs exactly the
characters of the normalized input that are neither whitespace nor
members of the dropped-punctuation set, in order. -/
theorem C8_tokenizer_total_coverage : ∀ x : String,
    ((tokenize_for_fts x).map String.data).flatten =
      (normalize_nfkc_lower_strip_marks x).data.filter
        (fun c => !rustIsWhitespace c && !is_common_punctuation c) := by
  intro x
  unfold tokenize_for_fts
  exact tokenizeLoop_flatten _ [] (fun c hc => normalize_chars_stable hc)

/-! ## Theorems for the normalizer-idempotence claim -/

theorem decompose_fixed {l : List Char} (h : ∀ c ∈ l, decomposeChar c = [c]) :
    l.flatMap decomposeChar = l := by
  induction l with
  | nil => rfl
  | cons c t ih =>
    rw [List.flatMap_cons, h c (List.mem_cons_self c t),
      ih (fun d hd => h d (List.mem_cons_of_mem c hd))]
    rfl

theorem reorderGo_fixed : ∀ {l : List Char} {a : Char}, cccOf a = 0 →
    (∀ c ∈ l, cccOf c = 0) → reorderGo a l = a :: l := by
  intro l
  induction l with
  | nil => intro a _ _; rfl
  | cons b t ih =>
    intro a _ h
    have hb := h b (List.mem_cons_self b t)
    simp only [reorderGo, hb]
    rw [ih hb (fun c hc => h c (List.mem_cons_of_mem b hc))]
    simp

theorem reorderIter_fixed {l : List Char} (h : ∀ c ∈ l, cccOf c = 0) :
    ∀ n, reorderIter n l = l := by
  have hpass : reorderPass l = l := by
    cases l with
    | nil => rfl
    | cons a t =>
      unfold reorderPass
      exact reorderGo_fixed (h a (List.mem_cons_self a t))
        (fun c hc => h c (List.mem_cons_of_mem a hc))
  intro n
  induction n with
  | zero => rfl
  | succ n ih =>
    unfold reorderIter
    rw [hpass, ih]

theorem canonicalReorder_fixed {l : List Char} (h : ∀ c ∈ l, cccOf c = 0) :
    canonicalReorder l = l :=
  reorderIter_fixed h l.length

theorem composeRun_fixed : ∀ {l : List Char} {s : Char}, cccOf s = 0 →
    (∀ c ∈ l, cccOf c = 0) →
    noComposablePair (s :: l) = true →
    composeRun s [] 0 l = s :: l := by
  intro l
  induction l with
  | nil => intro s _ _ _; rfl
  | cons c t ih =>
    intro s _ h hch
    have hc0 := h c (List.mem_cons_self c t)
    rw [noComposablePair, Bool.and_eq_true] at hch
    have hsc : composePair s c = none := Option.isNone_iff_eq_none.mp hch.1
    simp only [composeRun, hc0, if_true, hsc]
    rw [ih hc0 (fun d hd => h d (List.mem_cons_of_mem c hd)) hch.2]
    rfl

theorem canonicalCompose_fixed {l : List Char}
    (h : ∀ c ∈ l, cccOf c = 0)
    (hch : noComposablePair l = true) :
    canonicalCompose l = l := by
  cases l with
  | nil => rfl
  | cons c t =>
    have hc := h c (List.mem_cons_self c t)
    simp only [canonicalCompose, hc, if_true]
    exact composeRun_fixed hc (fun d hd => h d (List.mem_cons_of_mem c hd)) hch

theorem flatMap_toLower_fixed {l : List Char} (h : ∀ c ∈ l, toLowerChar c = [c]) :
    l.flatMap toLowerChar = l := by
  induction l with
  | nil => rfl
  | cons c t ih =>
    rw [List.flatMap_cons, h c (List.mem_cons_self c t),
      ih (fun d hd => h d (List.mem_cons_of_mem c hd))]
    rfl

theorem normalize_fixed_point (y : String)
    (hccc : ∀ c ∈ y.data, cccOf c = 0)
    (hstable : ∀ c ∈ y.data, toLowerChar c = [c])
    (hdec : ∀ c ∈ y.data, decomposeChar c = [c])
    (hch : noComposablePair y.data = true) :
    normalize_nfkc_lower_strip_marks y = y := by
  unfold normalize_nfkc_lower_strip_marks nfkcList
  rw [decompose_fixed hdec]
  rw [canonicalReorder_fixed hccc]
  rw [canonicalCompose_fixed hccc hch]
  rw [flatMap_toLower_fixed hstable]
  rw [List.filter_eq_self.mpr (fun c hc => by simp [hccc c hc])]

/-- C7 counterexample: normalize is not idempotent — stripping a
combining mark can leave two characters adjacent that canonically
compose, and the second normalize produces a composite the first run did
not: a Hangul jamo pair (algorithmic composition), and, with an entirely
Hangul-free normalized form, the Bengali two-part vowel pair (table
composition). -/
theorem C7_normalize_idempotent_counterexample :
    (normalize_nfkc_lower_strip_marks (normalize_nfkc_lower_strip_marks hangulJamoProbe) ≠
      normalize_nfkc_lower_strip_marks hangulJamoProbe) ∧
    (normalize_nfkc_lower_strip_marks (normalize_nfkc_lower_strip_marks bengaliProbe) ≠
      normalize_nfkc_lower_strip_marks bengaliProbe) ∧
    (∀ c ∈ (normalize_nfkc_lower_strip_marks bengaliProbe).data,
      isHangulSyllable c = false ∧ isHangulV c = false ∧ isHangulT c = false) := by
  decide

/-- C7 amended: normalize is idempotent on every input whose normalized
form consists of decomposition-stable characters with no adjacent pair
that canonically composes (Hangul-algorithmically or through the
composite table) — in particular on all ASCII, CJK-ideograph and
punctuation text.  The proof uses composability only pointwise, so the
statement holds equally under the full Unicode tables. -/
theorem C7_normalize_idempotent_amended : ∀ x : String,
    (∀ c ∈ (normalize_nfkc_lower_strip_marks x).data, decomposeChar c = [c]) →
    noComposablePair (normalize_nfkc_lower_strip_marks x).data = true →
    normalize_nfkc_lower_strip_marks (normalize_nfkc_lower_strip_marks x) =
      normalize_nfkc_lower_strip_marks x :=
  fun _ hdec hch =>
    normalize_fixed_point _ (fun _ hc => normalize_chars_ccc hc)
      (fun _ hc => (normalize_chars_stable hc).1) hdec hch

/-- C7 witness: the amended idempotence at a concrete mixed-script
input. -/
theorem C7_normalize_idempotent_witness :
    normalize_nfkc_lower_strip_marks (normalize_nfkc_lower_strip_marks "Cafe 苦艾 ABC!") =
      normalize_nfkc_lower_strip_marks "Cafe 苦艾 ABC!" :=
  C7_normalize_idempotent_amended _ (by decide) (by decide)

/-! ## Theorems for the parser-drop-rule claim -/

theorem mem_of_dropWhile {p : Char → Bool} {m : List Char} {c : Char}
    (hc : c ∈ m.dropWhile p) : c ∈ m :=
  List.Sublist.mem hc (List.dropWhile_sublist p)

theorem mem_of_drop {n : Nat} {m : List Char} {c : Char} (hc : c ∈ m.drop n) : c ∈ m :=
  List.Sublist.mem hc (List.drop_sublist n m)

theorem mem_of_trimWsList {m : List Char} {c : Char} (hc : c ∈ trimWsList m) : c ∈ m := by
  unfold trimWsList at hc
  rw [List.mem_reverse] at hc
  have := mem_of_dropWhile hc
  rw [List.mem_reverse] at this
  exact mem_of_dropWhile this


theorem matchAttrAt_quote {l : List Char} {r : (String × String) × List Char}
    (h : matchAttrAt l = some r) : '"' ∈ l := by
  unfold matchAttrAt at h
  dsimp only at h
  split at h
  · simp at h
  · split at h
    case h_1 r2 heq =>
      split at h
      case h_1 r3 heq2 =>
        have h1 : '"' ∈ r2.dropWhile rustIsWhitespace := by
          rw [heq2]
          exact List.mem_cons_self _ _
        have h2 : '"' ∈ ('=' :: r2) := List.mem_cons_of_mem _ (mem_of_dropWhile h1)
        rw [← heq] at h2
        exact mem_of_drop (mem_of_dropWhile h2)
      case h_2 => simp at h
    case h_2 => simp at h

theorem matchNumberedAt_quote {l : List Char} {r : String × List Char}
    (h : matchNumberedAt l = some r) : '"' ∈ l := by
  unfold matchNumberedAt at h
  dsimp only at h
  split at h
  · split at h
    · simp at h
    · split at h
      case h_1 r2 heq =>
        have h1 : '"' ∈ ('=' :: '"' :: r2) :=
          List.mem_cons_of_mem _ (List.mem_cons_self _ _)
        rw [← heq] at h1
        exact mem_of_drop (mem_of_drop h1)
      case h_2 => simp at h
  · simp at h

theorem scanAttrsGo_nil : ∀ (fuel : Nat) (l : List Char), '"' ∉ l →
    scanAttrsGo fuel l = [] := by
  intro fuel
  induction fuel with
  | zero => intro l _; rfl
  | succ n ih =>
    intro l hq
    cases l with
    | nil => rfl
    | cons c t =>
      rw [scanAttrsGo]
      cases hm : matchAttrAt (c :: t) with
      | some x => exact absurd (matchAttrAt_quote hm) hq
      | none => exact ih t (fun hc => hq (List.mem_cons_of_mem c hc))

theorem parse_attributes_nil {l : List Char} (hq : '"' ∉ l) : parse_attributes l = [] := by
  unfold parse_attributes
  rw [scanAttrsGo_nil _ _ hq]
  rfl

theorem scanNumberedGo_nil : ∀ (fuel : Nat) (l : List Char), '"' ∉ l →
    scanNumberedGo fuel l = [] := by
  intro fuel
  induction fuel with
  | zero => intro l _; rfl
  | succ n ih =>
    intro l hq
    cases l with
    | nil => rfl
    | cons c t =>
      rw [scanNumberedGo]
      cases hm : matchNumberedAt (c :: t) with
      | some x => exact absurd (matchNumberedAt_quote hm) hq
      | none => exact ih t (fun hc => hq (List.mem_cons_of_mem c hc))

theorem scanNumbered_nil {l : List Char} (hq : '"' ∉ l) : scanNumbered l = [] :=
  scanNumberedGo_nil _ _ hq

theorem attrsGet_nil (k : String) : attrsGet [] k = none := rfl

theorem split_attrs_getD_subset {inside : List Char} {c : Char}
    (hc : c ∈ (split_command_and_attrs inside).2.getD inside) : c ∈ inside := by
  unfold split_command_and_attrs at hc
  dsimp only at hc
  split at hc
  · exact hc
  · split at hc
    · exact mem_of_trimWsList (mem_of_drop (mem_of_trimWsList hc))
    · exact hc

/-- C5 counterexample: the command line [name="X"] . has resolved text
"." which fails the meaningful-content filter, yet it produces a
Dialogue segment — only part of the command handlers apply that
filter. -/
theorem C5_drop_rule_counterexample :
    has_meaningful_content "." = false ∧
    parse_story_text "[name=\"X\"] ." =
      ⟨[StorySegment.dialogue "X" "." none]⟩ := by
  constructor
  · decide
  · decide

/-- C5 amended: a command line with no double quote whose cleaned
remainder is empty produces no segment, and [name="X"] with no remainder
and no text attribute parses to zero segments; the meaningful-content
filter, however, is applied by the dialog/voicewithin handlers
(parse_dialog_like), the narration/animtext/title/div/avatar-state/
unknown-command handlers and by speaker resolution — so [dialog] with the
punctuation-only remainder "." is dropped — but not by the name-command
path, where the same remainder still yields a dialogue segment. -/
theorem C5_drop_rule_amended :
    parse_story_text "[name=\"X\"]" = ⟨[]⟩ ∧
    parse_command_line "[dialog] ." = none ∧
    ∀ line : String, '"' ∉ line.data →
      clean_text (commandRemainder line) = "" →
      parse_command_line line = none := by
  refine ⟨by decide, by decide, ?_⟩
  intro line hq hrem
  unfold parse_command_line
  cases hfind : line.data.findIdx? (fun c => c = ']') with
  | none => rfl
  | some endi =>
    have hrem2 : clean_text (String.mk (trimWsList (line.data.drop (endi + 1)))) = "" := by
      unfold commandRemainder at hrem
      rw [hfind] at hrem
      exact hrem
    have hqin : '"' ∉ (line.data.drop 1).take (endi - 1) := fun hc =>
      hq (mem_of_drop (List.Sublist.mem hc (List.take_sublist _ _)))
    have hattrs : parse_attributes ((line.data.drop 1).take (endi - 1)) = [] :=
      parse_attributes_nil hqin
    have hnum := scanNumbered_nil (fun hc => hqin (split_attrs_getD_subset hc))
    have hmean : has_meaningful_content "" = false := rfl
    have hdata : ("" : String).data.isEmpty = true := rfl
    have htrim : trimStr "" = "" := rfl
    have htrim2 : (trimWsList ("" : String).data).isEmpty = true := rfl
    have hofil : ∀ p : String → Bool, Option.filter p none = none := fun _ => rfl
    simp only [hattrs, hrem2, attrsGet_nil, hnum, parse_dialog_like, Option.map_none',
      Option.getD_none, hofil, List.map_nil, List.filter_nil, List.isEmpty_nil,
      hmean, hdata, htrim, htrim2, Bool.not_false, if_true, ite_self]

/-- C5 witness: the general drop rule at the attribute-free command line
[blocker] (unknown command, empty remainder). -/
theorem C5_drop_rule_witness : parse_command_line "[blocker]" = none :=
  C5_drop_rule_amended.2.2 "[blocker]" (by decide) (by decide)

/-! ## Merge-loop and orchestration lemmas, search claims -/

theorem mergeLoop_nil (seen : List String) (acc : List SearchResult) :
    mergeLoop [] seen acc = (acc, seen) := rfl

theorem mergeLoop_acc_pre : ∀ (fb : List SearchResult) (seen : List String)
    (acc : List SearchResult), acc <+: (mergeLoop fb seen acc).1 := by
  intro fb
  induction fb with
  | nil => intro seen acc; exact List.prefix_refl _
  | cons r rest ih =>
    intro seen acc
    rw [mergeLoop]
    by_cases hc : seen.contains r.story_id = true
    · rw [if_pos hc]
      exact ih seen acc
    · rw [if_neg hc]
      dsimp only
      by_cases hl : SEARCH_RESULT_LIMIT ≤ (acc ++ [r]).length
      · rw [if_pos hl]
        exact List.prefix_append acc [r]
      · rw [if_neg hl]
        exact (List.prefix_append acc [r]).trans (ih _ _)

theorem mergeLoop_len_lt : ∀ (fb : List SearchResult) (seen : List String)
    (acc : List SearchResult), acc.length < SEARCH_RESULT_LIMIT →
    (mergeLoop fb seen acc).1.length ≤ SEARCH_RESULT_LIMIT := by
  intro fb
  induction fb with
  | nil => intro seen acc h; exact Nat.le_of_lt h
  | cons r rest ih =>
    intro seen acc h
    rw [mergeLoop]
    by_cases hc : seen.contains r.story_id = true
    · rw [if_pos hc]; exact ih seen acc h
    · rw [if_neg hc]
      dsimp only
      by_cases hl : SEARCH_RESULT_LIMIT ≤ (acc ++ [r]).length
      · rw [if_pos hl]
        simp only [List.length_append, List.length_cons, List.length_nil]
        omega
      · rw [if_neg hl]
        exact ih _ _ (by simp only [List.length_append] at hl ⊢; omega)

theorem mergeLoop_len_le : ∀ (fb : List SearchResult) (seen : List String)
    (acc : List SearchResult), acc.length ≤ SEARCH_RESULT_LIMIT →
    (mergeLoop fb seen acc).1.length ≤ SEARCH_RESULT_LIMIT + 1 := by
  intro fb
  induction fb with
  | nil =>
    intro seen acc h
    rw [mergeLoop_nil]
    dsimp only
    omega
  | cons r rest ih =>
    intro seen acc h
    rw [mergeLoop]
    by_cases hc : seen.contains r.story_id = true
    · rw [if_pos hc]; exact ih seen acc h
    · rw [if_neg hc]
      dsimp only
      by_cases hl : SEARCH_RESULT_LIMIT ≤ (acc ++ [r]).length
      · rw [if_pos hl]
        simp only [List.length_append, List.length_cons, List.length_nil]
        omega
      · rw [if_neg hl]
        exact ih _ _ (by simp only [List.length_append] at hl ⊢; omega)

theorem mergeLoop_nodup : ∀ (fb : List SearchResult) (seen : List String)
    (acc : List SearchResult),
    (∀ r ∈ acc, r.story_id ∈ seen) → (acc.map (fun r => r.story_id)).Nodup →
    ((mergeLoop fb seen acc).1.map (fun r => r.story_id)).Nodup := by
  intro fb
  induction fb with
  | nil => intro seen acc _ hnd; exact hnd
  | cons r rest ih =>
    intro seen acc hsub hnd
    rw [mergeLoop]
    by_cases hc : seen.contains r.story_id = true
    · rw [if_pos hc]; exact ih seen acc hsub hnd
    · rw [if_neg hc]
      dsimp only
      have hrs : r.story_id ∉ seen := by simpa using hc
      have hnd2 : ((acc ++ [r]).map (fun x => x.story_id)).Nodup := by
        rw [List.map_append]
        refine List.Nodup.append hnd (List.nodup_singleton _) ?_
        intro s hs1 hs2
        simp only [List.map_cons, List.map_nil, List.mem_singleton] at hs2
        subst hs2
        rcases List.mem_map.mp hs1 with ⟨x, hx, hxid⟩
        exact hrs (hxid ▸ hsub x hx)
      have hsub2 : ∀ x ∈ acc ++ [r], x.story_id ∈ r.story_id :: seen := by
        intro x hx
        rcases List.mem_append.mp hx with hxa | hxr
        · exact List.mem_cons_of_mem _ (hsub x hxa)
        · simp only [List.mem_singleton] at hxr
          subst hxr
          exact List.mem_cons_self _ _
      by_cases hl : SEARCH_RESULT_LIMIT ≤ (acc ++ [r]).length
      · rw [if_pos hl]; exact hnd2
      · rw [if_neg hl]; exact ih _ _ hsub2 hnd2

theorem mergeLoop_from_fb : ∀ (fb : List SearchResult) (seen : List String)
    (acc : List SearchResult), ∀ x ∈ (mergeLoop fb seen acc).1,
    x ∈ acc ∨ (x ∈ fb ∧ x.story_id ∉ seen) := by
  intro fb
  induction fb with
  | nil => intro seen acc x hx; exact Or.inl hx
  | cons r rest ih =>
    intro seen acc x hx
    rw [mergeLoop] at hx
    by_cases hc : seen.contains r.story_id = true
    · rw [if_pos hc] at hx
      rcases ih seen acc x hx with h | h
      · exact Or.inl h
      · exact Or.inr ⟨List.mem_cons_of_mem _ h.1, h.2⟩
    · rw [if_neg hc] at hx
      dsimp only at hx
      have hrs : r.story_id ∉ seen := by simpa using hc
      by_cases hl : SEARCH_RESULT_LIMIT ≤ (acc ++ [r]).length
      · rw [if_pos hl] at hx
        rcases List.mem_append.mp hx with hxa | hxr
        · exact Or.inl hxa
        · simp only [List.mem_singleton] at hxr
          subst hxr
          exact Or.inr ⟨List.mem_cons_self _ _, hrs⟩
      · rw [if_neg hl] at hx
        rcases ih _ _ x hx with h | h
        · rcases List.mem_append.mp h with hxa | hxr
          · exact Or.inl hxa
          · simp only [List.mem_singleton] at hxr
            subst hxr
            exact Or.inr ⟨List.mem_cons_self _ _, hrs⟩
        · rcases h with ⟨hmem, hid⟩
          refine Or.inr ⟨List.mem_cons_of_mem _ hmem, fun hin => hid ?_⟩
          exact List.mem_cons_of_mem _ hin

theorem mergeLoop_all_new : ∀ (I : List SearchResult) (seen : List String)
    (acc : List SearchResult),
    (I.map (fun r => r.story_id)).Nodup → (∀ r ∈ I, r.story_id ∉ seen) →
    acc.length + I.length ≤ SEARCH_RESULT_LIMIT →
    mergeLoop I seen acc = (acc ++ I, (I.map (fun r => r.story_id)).reverse ++ seen) := by
  intro I
  induction I with
  | nil => intro seen acc _ _ _; simp [mergeLoop_nil]
  | cons r rest ih =>
    intro seen acc hnd hfresh hlen
    rw [mergeLoop]
    have hrs : r.story_id ∉ seen := hfresh r (List.mem_cons_self r rest)
    rw [if_neg (by simpa using hrs)]
    dsimp only
    by_cases hl : SEARCH_RESULT_LIMIT ≤ (acc ++ [r]).length
    · rw [if_pos hl]
      have hrest : rest = [] := by
        simp only [List.length_append, List.length_cons, List.length_nil] at hl
        simp only [List.length_cons] at hlen
        exact List.length_eq_zero.mp (by omega)
      subst hrest
      simp
    · rw [if_neg hl]
      have hnd2 : (rest.map (fun x => x.story_id)).Nodup := by
        simp only [List.map_cons, List.nodup_cons] at hnd
        exact hnd.2
      have hfresh2 : ∀ x ∈ rest, x.story_id ∉ r.story_id :: seen := by
        intro x hx hmem
        rcases List.mem_cons.mp hmem with heq | hseen
        · simp only [List.map_cons, List.nodup_cons] at hnd
          exact hnd.1 (heq ▸ List.mem_map_of_mem _ hx)
        · exact hfresh x (List.mem_cons_of_mem _ hx) hseen
      have hlen2 : (acc ++ [r]).length + rest.length ≤ SEARCH_RESULT_LIMIT := by
        rw [List.length_append]
        simp only [List.length_cons, List.length_nil]
        rw [List.length_cons] at hlen
        omega
      rw [ih _ _ hnd2 hfresh2 hlen2]
      simp

theorem mergeLoop_seen_congr : ∀ (fb : List SearchResult) (seen1 seen2 : List String)
    (acc : List SearchResult), (∀ s : String, s ∈ seen1 ↔ s ∈ seen2) →
    (mergeLoop fb seen1 acc).1 = (mergeLoop fb seen2 acc).1 := by
  intro fb
  induction fb with
  | nil => intro seen1 seen2 acc _; rfl
  | cons r rest ih =>
    intro seen1 seen2 acc hequiv
    rw [mergeLoop, mergeLoop]
    have hcc : seen1.contains r.story_id = seen2.contains r.story_id := by
      by_cases hm : r.story_id ∈ seen1
      · have hm2 := (hequiv _).mp hm
        simp [hm, hm2]
      · have hm2 : r.story_id ∉ seen2 := fun h => hm ((hequiv _).mpr h)
        simp [hm, hm2]
    by_cases hc : seen2.contains r.story_id = true
    · rw [hcc, if_pos hc, if_pos hc]
      exact ih _ _ acc hequiv
    · rw [hcc, if_neg hc, if_neg hc]
      dsimp only
      by_cases hl : SEARCH_RESULT_LIMIT ≤ (acc ++ [r]).length
      · rw [if_pos hl, if_pos hl]
      · rw [if_neg hl, if_neg hl]
        refine ih _ _ _ ?_
        intro s
        constructor
        · intro hs
          rcases List.mem_cons.mp hs with h | h
          · exact h ▸ List.mem_cons_self _ _
          · exact List.mem_cons_of_mem _ ((hequiv s).mp h)
        · intro hs
          rcases List.mem_cons.mp hs with h | h
          · exact h ▸ List.mem_cons_self _ _
          · exact List.mem_cons_of_mem _ ((hequiv s).mpr h)

theorem mergeLoop_cover : ∀ (fb : List SearchResult) (seen : List String)
    (acc : List SearchResult),
    (mergeLoop fb seen acc).1.length < SEARCH_RESULT_LIMIT →
    ∀ r ∈ fb, r.story_id ∈ seen ∨
      r.story_id ∈ (mergeLoop fb seen acc).1.map (fun x => x.story_id) := by
  intro fb
  induction fb with
  | nil => intro seen acc _ r hr; cases hr
  | cons r rest ih =>
    intro seen acc hlen x hx
    rw [mergeLoop] at hlen ⊢
    by_cases hc : seen.contains r.story_id = true
    · rw [if_pos hc] at hlen ⊢
      rcases List.mem_cons.mp hx with heq | hmem
      · subst heq
        exact Or.inl (by simpa using hc)
      · exact ih seen acc hlen x hmem
    · rw [if_neg hc] at hlen ⊢
      dsimp only at hlen ⊢
      by_cases hl : SEARCH_RESULT_LIMIT ≤ (acc ++ [r]).length
      · rw [if_pos hl] at hlen
        dsimp only at hlen
        rw [List.length_append] at hlen hl
        omega
      · rw [if_neg hl] at hlen ⊢
        have hrres : r ∈ (mergeLoop rest (r.story_id :: seen) (acc ++ [r])).1 := by
          have hpre := mergeLoop_acc_pre rest (r.story_id :: seen) (acc ++ [r])
          exact List.Sublist.mem (List.mem_append.mpr (Or.inr (List.mem_singleton.mpr rfl)))
            hpre.sublist
        rcases List.mem_cons.mp hx with heq | hmem
        · subst heq
          exact Or.inr (List.mem_map_of_mem _ hrres)
        · rcases ih _ _ hlen x hmem with hseen | hres
          · rcases List.mem_cons.mp hseen with heq | hs
            · have hrid : r.story_id ∈ (mergeLoop rest (r.story_id :: seen)
                  (acc ++ [r])).1.map (fun y => y.story_id) :=
                List.mem_map_of_mem _ hrres
              exact Or.inr (heq ▸ hrid)
            · exact Or.inl hs
          · exact Or.inr hres

theorem with_index_len_le {sv : DataService} {q : String} {I : List SearchResult}
    (h : search_stories_with_index sv q = .ok (some I)) :
    I.length ≤ SEARCH_RESULT_LIMIT := by
  unfold search_stories_with_index at h
  split at h
  · simp at h
  · split at h
    · simp at h
    · split at h
      · simp at h
      · split at h
        · simp only [Except.ok.injEq, Option.some.injEq] at h
          subst h
          simp
        · split at h
          · simp at h
          · simp only [Except.ok.injEq, Option.some.injEq] at h
            subst h
            simp only [List.length_map]
            exact List.length_take_le _ _

theorem with_index_compile_none_eq {sv : DataService} {q : String} {I : List SearchResult}
    (hnone : build_fts_query_advanced q = none)
    (h : search_stories_with_index sv q = .ok (some I)) : I = [] := by
  unfold search_stories_with_index at h
  split at h
  · simp at h
  · split at h
    · simp at h
    · split at h
      · simp at h
      · split at h
        case h_1 heq =>
          simp only [Except.ok.injEq, Option.some.injEq] at h
          exact h.symm
        case h_2 fts heq =>
          rw [hnone] at heq
          cases heq

theorem with_index_of_compile_none {sv : DataService} {q : String} {idx : FtsIndex}
    (hopen : sv.openResult = some idx) (hinit : sv.initError = none)
    (hrows : idx.rows.length ≠ 0) (hnone : build_fts_query_advanced q = none) :
    search_stories_with_index sv q = .ok (some []) := by
  unfold search_stories_with_index
  rw [hopen, hinit]
  dsimp only
  rw [if_neg hrows, hnone]


theorem fallbackLoop_len_le {sv : DataService} {qn : String} :
    ∀ (stories : List IndexedStory) (acc : List SearchResult),
    acc.length < SEARCH_RESULT_LIMIT →
    (fallbackLoop sv qn stories acc).length ≤ SEARCH_RESULT_LIMIT := by
  intro stories
  induction stories with
  | nil => intro acc h; exact Nat.le_of_lt h
  | cons ix rest ih =>
    intro acc h
    rw [fallbackLoop]
    dsimp only
    split
    · split
      · simp only [List.length_append, List.length_cons, List.length_nil]
        omega
      · exact ih _ (by omega)
    · split
      · split
        · split
          · simp only [List.length_append, List.length_cons, List.length_nil]
            omega
          · exact ih _ (by omega)
        · exact ih _ h
      · exact ih _ h

theorem fallback_len_le {sv : DataService} {q : String} {fb : List SearchResult}
    (h : search_stories_fallback sv q = .ok fb) : fb.length ≤ SEARCH_RESULT_LIMIT := by
  unfold search_stories_fallback at h
  cases hcol : collect_stories_for_index sv with
  | error e => rw [hcol] at h; simp [Except.map] at h
  | ok stories =>
    rw [hcol] at h
    simp only [Except.map, Except.ok.injEq] at h
    subst h
    exact fallbackLoop_len_le stories [] (by decide)

theorem string_eq_empty_of_data {s : String} (h : s.data.isEmpty = true) : s = "" :=
  String.ext (by simpa [List.isEmpty_iff] using h)

/-- C2: the merged result list contains each story id at most once, the
index results keep their ranked order in front, and every further result
is a fallback result whose id the index path did not produce. -/
theorem C2_hybrid_dedup : ∀ (sv : DataService) (q : String)
    (I fb res : List SearchResult),
    (trimStr q).data ≠ [] →
    search_stories_with_index sv (trimStr q) = .ok (some I) →
    search_stories_fallback sv (trimStr q) = .ok fb →
    (I.map (fun r => r.story_id)).Nodup →
    search_stories sv q = .ok res →
    (res.map (fun r => r.story_id)).Nodup ∧ I <+: res ∧
      ∀ x ∈ res, x ∈ I ∨ (x ∈ fb ∧ x.story_id ∉ I.map (fun r => r.story_id)) := by
  intro sv q I fb res htr hI hfb hnd hres
  unfold search_stories at hres
  rw [if_neg (fun hc => htr (List.isEmpty_iff.mp hc))] at hres
  rw [hI, hfb] at hres
  simp only [Except.map, Except.ok.injEq] at hres
  subst hres
  refine ⟨mergeLoop_nodup _ _ _ (fun r hr => List.mem_map_of_mem _ hr) hnd,
    mergeLoop_acc_pre _ _ _, ?_⟩
  intro x hx
  exact mergeLoop_from_fb _ _ _ x hx

/-- C1 amended: the merged result list never exceeds 501 entries; when
the index path contributes fewer than 500 results and the two paths
together cover more than 500 distinct story ids, the list has exactly
500 entries.  (With the index path at exactly 500 results and a fresh
fallback id, the source's post-push cap check admits a 501st entry.) -/
theorem C1_result_cap : ∀ (sv : DataService) (q : String) (res : List SearchResult),
    search_stories sv q = .ok res →
    res.length ≤ SEARCH_RESULT_LIMIT + 1 ∧
    (∀ I fb, search_stories_with_index sv (trimStr q) = .ok (some I) →
      search_stories_fallback sv (trimStr q) = .ok fb →
      I.length < SEARCH_RESULT_LIMIT →
      SEARCH_RESULT_LIMIT < (((I ++ fb).map (fun r => r.story_id)).dedup).length →
      res.length = SEARCH_RESULT_LIMIT) := by
  intro sv q res hres
  unfold search_stories at hres
  by_cases htr : (trimStr q).data.isEmpty = true
  · rw [if_pos htr] at hres
    simp only [Except.ok.injEq] at hres
    subst hres
    refine ⟨by simp, ?_⟩
    intro I fb hI hfb hlt hgt
    exfalso
    have hq0 : trimStr q = "" := string_eq_empty_of_data htr
    have hInil : I = [] := by
      refine with_index_compile_none_eq ?_ hI
      rw [hq0]
      rfl
    have hfbl := fallback_len_le hfb
    subst hInil
    simp only [List.nil_append] at hgt
    have hded : ((fb.map (fun r => r.story_id)).dedup).length ≤ fb.length := by
      have hd2 := (List.dedup_sublist (fb.map (fun r => r.story_id))).length_le
      simpa using hd2
    omega
  · rw [if_neg htr] at hres
    cases hwi : search_stories_with_index sv (trimStr q) with
    | error e =>
      rw [hwi] at hres
      cases hfb2 : search_stories_fallback sv (trimStr q) with
      | error e2 => rw [hfb2] at hres; simp [Except.map] at hres
      | ok fb0 =>
        rw [hfb2] at hres
        simp only [Except.map, Except.ok.injEq] at hres
        subst hres
        refine ⟨le_trans (mergeLoop_len_lt _ _ _ (by decide)) (by omega), ?_⟩
        intro I fb hI hfb hlt hgt
        exact absurd hI (by simp)
    | ok o =>
      cases o with
      | none =>
        rw [hwi] at hres
        cases hfb2 : search_stories_fallback sv (trimStr q) with
        | error e2 => rw [hfb2] at hres; simp [Except.map] at hres
        | ok fb0 =>
          rw [hfb2] at hres
          simp only [Except.map, Except.ok.injEq] at hres
          subst hres
          refine ⟨le_trans (mergeLoop_len_lt _ _ _ (by decide)) (by omega), ?_⟩
          intro I fb hI hfb hlt hgt
          exact absurd hI (by simp)
      | some I0 =>
        rw [hwi] at hres
        cases hfb2 : search_stories_fallback sv (trimStr q) with
        | error e2 => rw [hfb2] at hres; simp [Except.map] at hres
        | ok fb0 =>
          rw [hfb2] at hres
          simp only [Except.map, Except.ok.injEq] at hres
          subst hres
          have hI0len := with_index_len_le hwi
          constructor
          · exact mergeLoop_len_le _ _ _ hI0len
          · intro I fb hI hfb hlt hgt
            simp only [Except.ok.injEq, Option.some.injEq] at hI hfb
            subst hI
            subst hfb
            by_contra hne
            have hle := mergeLoop_len_lt fb0 (I0.map (fun r => r.story_id)) I0 hlt
            have hlt2 : (mergeLoop fb0 (I0.map (fun r => r.story_id)) I0).1.length <
                SEARCH_RESULT_LIMIT := lt_of_le_of_ne hle hne
            have hcov := mergeLoop_cover fb0 (I0.map (fun r => r.story_id)) I0 hlt2
            have hpre := mergeLoop_acc_pre fb0 (I0.map (fun r => r.story_id)) I0
            set R := (mergeLoop fb0 (I0.map (fun r => r.story_id)) I0).1 with hR
            have hsub : ∀ s ∈ (I0 ++ fb0).map (fun r => r.story_id),
                s ∈ R.map (fun r => r.story_id) := by
              intro s hs
              rcases List.mem_map.mp hs with ⟨x, hx, hxs⟩
              rcases List.mem_append.mp hx with hxI | hxfb
              · exact hxs ▸ List.mem_map_of_mem _ (List.Sublist.mem hxI hpre.sublist)
              · rcases hcov x hxfb with hseen | hin
                · rcases List.mem_map.mp hseen with ⟨y, hy, hys⟩
                  have : y.story_id ∈ R.map (fun r => r.story_id) :=
                    List.mem_map_of_mem _ (List.Sublist.mem hy hpre.sublist)
                  rw [hys] at this
                  exact hxs ▸ this
                · exact hxs ▸ hin
            have h1 : ((I0 ++ fb0).map (fun r => r.story_id)).toFinset.card ≤
                (R.map (fun r => r.story_id)).toFinset.card :=
              Finset.card_le_card (fun s hs =>
                List.mem_toFinset.mpr (hsub s (List.mem_toFinset.mp hs)))
            rw [List.card_toFinset, List.card_toFinset] at h1
            have h2 : ((R.map (fun r => r.story_id)).dedup).length ≤ R.length := by
              have := (List.dedup_sublist (R.map (fun r => r.story_id))).length_le
          

          
              simpa using this
            omega

/-- C3 amended: when the index is present and nonempty but the query
compiles to none, the index path contributes an empty result set, yet the
fallback scan still runs and the search returns exactly its results. -/
theorem C3_compile_none : ∀ (sv : DataService) (q : String) (idx : FtsIndex)
    (fb : List SearchResult),
    sv.openResult = some idx → sv.initError = none → idx.rows.length ≠ 0 →
    (trimStr q).data ≠ [] →
    build_fts_query_advanced (trimStr q) = none →
    search_stories_fallback sv (trimStr q) = .ok fb →
    (fb.map (fun r => r.story_id)).Nodup →
    search_stories sv q = .ok fb := by
  intro sv q idx fb hopen hinit hrows htr hnone hfb hnd
  unfold search_stories
  rw [if_neg (fun hc => htr (List.isEmpty_iff.mp hc))]
  rw [with_index_of_compile_none hopen hinit hrows hnone]
  dsimp only
  rw [hfb]
  simp only [Except.map, Except.ok.injEq]
  rw [show (List.map (fun r : SearchResult => r.story_id) []) = ([] : List String)
    from rfl]
  rw [mergeLoop_all_new fb [] [] hnd (fun r _ h => by cases h)
    (by simpa using fallback_len_le hfb)]
  simp

/-- C4 amended: the debug variant's result list is always a prefix of the
plain search's result list, and the two are equal whenever the index path
returns fewer than 500 results; with exactly 500 index results the plain
search may append one further fallback result that the debug variant's
pre-append cap check rejects. -/
theorem C4_debug_results : ∀ (sv : DataService) (q : String)
    (res : List SearchResult) (dres : SearchDebugResponse),
    (∀ I, search_stories_with_index sv (trimStr q) = .ok (some I) →
      (I.map (fun r => r.story_id)).Nodup) →
    search_stories sv q = .ok res →
    search_stories_with_debug sv q = .ok dres →
    dres.results <+: res ∧
      (∀ I, search_stories_with_index sv (trimStr q) = .ok (some I) →
        I.length < SEARCH_RESULT_LIMIT → dres.results = res) := by
  intro sv q res dres hnd hres hdres
  unfold search_stories at hres
  unfold search_stories_with_debug at hdres
  by_cases htr : (trimStr q).data.isEmpty = true
  · rw [if_pos htr] at hres hdres
    simp only [Except.ok.injEq] at hres hdres
    subst hres
    subst hdres
    exact ⟨List.prefix_refl _, fun I _ _ => rfl⟩
  · rw [if_neg htr] at hres hdres
    cases hfb2 : search_stories_fallback sv (trimStr q) with
    | error e =>
      rw [hfb2] at hres
      simp [Except.map] at hres
    | ok fb0 =>
      rw [hfb2] at hres hdres
      simp only [Except.map, Except.ok.injEq] at hres hdres
      subst hres
      subst hdres
      cases hwi : search_stories_with_index sv (trimStr q) with
      | error e =>
        dsimp only
        rw [if_pos (show (mergeLoop ([] : List SearchResult) [] []).1.length <
          SEARCH_RESULT_LIMIT by decide)]
        refine ⟨List.prefix_refl _, ?_⟩
        intro I hI hlt
        exact absurd hI (by simp)
      | ok o =>
        cases o with
        | none =>
          dsimp only
          rw [if_pos (show (mergeLoop ([] : List SearchResult) [] []).1.length <
            SEARCH_RESULT_LIMIT by decide)]
          refine ⟨List.prefix_refl _, ?_⟩
          intro I hI hlt
          exact absurd hI (by simp)
        | some I0 =>
          have hndI := hnd I0 hwi
          have hlen := with_index_len_le hwi
          dsimp only
          rw [mergeLoop_all_new I0 [] [] hndI (fun r _ h => by cases h)
            (by simpa using hlen)]
          dsimp only
          simp only [List.nil_append, List.append_nil]
          by_cases hI0lt : I0.length < SEARCH_RESULT_LIMIT
          · rw [if_pos hI0lt]
            have hcongr := mergeLoop_seen_congr fb0 ((I0.map (fun r => r.story_id)).reverse)
              (I0.map (fun r => r.story_id)) I0 (fun s => by simp)
            refine ⟨hcongr ▸ List.prefix_refl _, ?_⟩
            intro I hI hlt
            exact hcongr
          · rw [if_neg hI0lt]
            refine ⟨mergeLoop_acc_pre _ _ _, ?_⟩
            intro I hI hlt
            simp only [Except.ok.injEq, Option.some.injEq] at hI
            subst hI
            exact absurd hlt hI0lt

/-- C9: every indexing and grouped-listing operation checks installation
first and fails with the distinguished NOT_INSTALLED error value before
touching any file, never a generic I/O error. -/
theorem C9_not_installed_guard : ∀ sv : DataService, sv.installed = false →
    collect_stories_for_index sv = .error "NOT_INSTALLED" ∧
    rebuild_story_index sv = .error "NOT_INSTALLED" ∧
    get_main_stories_grouped sv = .error "NOT_INSTALLED" ∧
    get_activity_stories_grouped sv = .error "NOT_INSTALLED" ∧
    get_sidestory_stories_grouped sv = .error "NOT_INSTALLED" ∧
    get_roguelike_stories_grouped sv = .error "NOT_INSTALLED" ∧
    get_record_stories_grouped sv = .error "NOT_INSTALLED" ∧
    get_rune_stories sv = .error "NOT_INSTALLED" ∧
    get_memory_stories sv = .error "NOT_INSTALLED" := by
  intro sv h
  unfold collect_stories_for_index rebuild_story_index get_main_stories_grouped
    get_activity_stories_grouped get_sidestory_stories_grouped
    get_roguelike_stories_grouped get_record_stories_grouped get_rune_stories
    get_memory_stories
  rw [h]
  exact ⟨rfl, rfl, rfl, rfl, rfl, rfl, rfl, rfl, rfl⟩

/-- C9 witness: the guard at the concrete not-installed service. -/
theorem C9_not_installed_guard_witness :
    collect_stories_for_index svNotInstalled = .error "NOT_INSTALLED" ∧
    rebuild_story_index svNotInstalled = .error "NOT_INSTALLED" :=
  ⟨(C9_not_installed_guard svNotInstalled rfl).1,
   (C9_not_installed_guard svNotInstalled rfl).2.1⟩

/-- C2 witness: on the small corpus the merged list is duplicate-free and
keeps the index result in front. -/
theorem C2_hybrid_dedup_witness :
    (resSmall.map (fun r => r.story_id)).Nodup ∧ ISmall <+: resSmall := by
  have h := C2_hybrid_dedup svSmall "z" ISmall fbSmall resSmall (by decide) rfl rfl
    (by decide) rfl
  exact ⟨h.1, h.2.1⟩

/-- C3 counterexample: with a present, nonempty index and the query "-"
(which compiles to none), the search is not terminal — the fallback scan
still contributes a result. -/
theorem C3_compile_none_counterexample :
    svC3.openResult.map (fun idx => idx.rows.length) = some 1 ∧
    build_fts_query_advanced (trimStr "-") = none ∧
    (trimStr "-").data ≠ [] ∧
    search_stories svC3 "-" ≠ .ok [] := by
  refine ⟨rfl, rfl, by decide, ?_⟩
  intro h
  have he : search_stories svC3 "-" = .ok fbC3 := rfl
  rw [he] at h
  simp only [Except.ok.injEq] at h
  exact absurd h (by decide)

/-- C3 witness: the amended statement at the concrete corpus — the search
returns exactly the fallback results. -/
theorem C3_compile_none_witness : search_stories svC3 "-" = .ok fbC3 :=
  C3_compile_none svC3 "-" idxC3 fbC3 rfl rfl (by decide) (by decide) rfl rfl
    (by decide)

theorem char_toNat_ofNat {n : Nat} (h : n < 0xD800) : (Char.ofNat n).toNat = n := by
  unfold Char.ofNat
  rw [dif_pos (Or.inl h)]
  unfold Char.ofNatAux
  simp [Char.toNat, UInt32.toNat, BitVec.toNat_ofNatLt]

theorem cjkId_inj {i j : Nat} (hi : i < 1000) (hj : j < 1000) (h : cjkId i = cjkId j) :
    i = j := by
  have h2 := congrArg String.data h
  simp only [cjkId] at h2
  have h3 : Char.ofNat (0x4E00 + i) = Char.ofNat (0x4E00 + j) := by
    simpa using h2
  have h4 := congrArg Char.toNat h3
  rw [char_toNat_ofNat (by omega), char_toNat_ofNat (by omega)] at h4
  omega

theorem cjkIds_nodup (n : Nat) (hn : n ≤ 1000) : ((List.range n).map cjkId).Nodup :=
  List.Nodup.map_on
    (fun x hx y hy hxy =>
      cjkId_inj (lt_of_lt_of_le (List.mem_range.mp hx) hn)
        (lt_of_lt_of_le (List.mem_range.mp hy) hn) hxy)
    (List.nodup_range n)

theorem cjkId_ne {i : Nat} (hi : i < 1000) {c : Char} (hc : c.toNat < 0x4E00) :
    cjkId i ≠ String.mk [c] := by
  intro h
  have h2 := congrArg String.data h
  simp only [cjkId] at h2
  have h3 : Char.ofNat (0x4E00 + i) = c := by simpa using h2
  have h4 := congrArg Char.toNat h3
  rw [char_toNat_ofNat (by omega)] at h4
  omega

theorem notMem_cjkIds {n : Nat} (hn : n ≤ 1000) {c : Char} (hc : c.toNat < 0x4E00) :
    String.mk [c] ∉ (List.range n).map cjkId := by
  intro hm
  rcases List.mem_map.mp hm with ⟨i, hir, heq⟩
  exact cjkId_ne (lt_of_lt_of_le (List.mem_range.mp hir) hn) hc heq

theorem bigResults_ids :
    bigResults.map (fun r => r.story_id) = (List.range 500).map cjkId := by
  unfold bigResults bigRows
  rw [List.map_map, List.map_map]
  rfl

theorem bigResults_length : bigResults.length = 500 := by
  simp [bigResults, bigRows]

theorem wideIResults_ids :
    wideIResults.map (fun r => r.story_id) = (List.range 499).map cjkId := by
  unfold wideIResults wideRows
  rw [List.map_map, List.map_map]
  rfl

theorem wideIResults_length : wideIResults.length = 499 := by
  simp [wideIResults, wideRows]

set_option maxRecDepth 4096 in
theorem with_index_svBig :
    search_stories_with_index svBig (trimStr "z") = .ok (some bigResults) := by
  unfold search_stories_with_index
  rw [show svBig.openResult = some bigIdx from rfl]
  dsimp only
  rw [show svBig.initError = (none : Option String) from rfl]
  dsimp only
  rw [if_neg (show ¬bigIdx.rows.length = 0 by simp [bigIdx, bigRows])]
  rw [show build_fts_query_advanced (trimStr "z") = some "z*" from rfl]
  dsimp only
  rw [show svBig.execError = (none : Option String) from rfl]
  dsimp only
  rw [show bigIdx.matchRank "z*" = bigRows.map (fun r => (r, "")) from rfl]
  rw [List.take_of_length_le (by simp [bigRows, SEARCH_RESULT_LIMIT])]
  rw [List.map_map]
  rfl

set_option maxRecDepth 100000 in
theorem fallback_svBig :
    search_stories_fallback svBig (trimStr "z") = .ok [fxBig] := by decide

theorem bigIds_not_contain_x :
    ((List.range 500).map cjkId).contains "x" = false := by
  cases hc : ((List.range 500).map cjkId).contains "x" with
  | false => rfl
  | true =>
    exact absurd (show "x" ∈ (List.range 500).map cjkId by simpa using hc)
      (notMem_cjkIds (by omega) (show ('x' : Char).toNat < 0x4E00 by decide))

theorem search_svBig : search_stories svBig "z" = .ok (bigResults ++ [fxBig]) := by
  unfold search_stories
  rw [if_neg (by decide)]
  rw [with_index_svBig]
  dsimp only
  rw [fallback_svBig]
  simp only [Except.map, Except.ok.injEq]
  rw [mergeLoop]
  rw [if_neg (show ¬((bigResults.map (fun r => r.story_id)).contains fxBig.story_id = true) by
    rw [show fxBig.story_id = "x" from rfl, bigResults_ids, bigIds_not_contain_x]
    simp)]
  dsimp only
  rw [if_pos (show SEARCH_RESULT_LIMIT ≤ (bigResults ++ [fxBig]).length by
    rw [List.length_append, bigResults_length]
    decide)]

theorem bigResults_nodup : (bigResults.map (fun r => r.story_id)).Nodup := by
  rw [bigResults_ids]
  exact cjkIds_nodup 500 (by omega)

set_option maxRecDepth 4096 in
theorem debug_svBig :
    (search_stories_with_debug svBig "z").map (fun r => r.results.length) =
      .ok SEARCH_RESULT_LIMIT := by
  unfold search_stories_with_debug
  rw [if_neg (by decide)]
  rw [with_index_svBig]
  dsimp only
  rw [fallback_svBig]
  simp only [Except.map]
  rw [mergeLoop_all_new bigResults [] [] bigResults_nodup (fun r _ h => by cases h)
    (by rw [bigResults_length]; decide)]
  dsimp only
  rw [List.nil_append]
  rw [if_neg (show ¬(bigResults.length < SEARCH_RESULT_LIMIT) by
    rw [bigResults_length]
    decide)]
  rw [bigResults_length]
  rfl

set_option maxRecDepth 4096 in
theorem with_index_svWide :
    search_stories_with_index svWide (trimStr "z") = .ok (some wideIResults) := by
  unfold search_stories_with_index
  rw [show svWide.openResult = some wideIdx from rfl]
  dsimp only
  rw [show svWide.initError = (none : Option String) from rfl]
  dsimp only
  rw [if_neg (show ¬wideIdx.rows.length = 0 by simp [wideIdx, wideRows])]
  rw [show build_fts_query_advanced (trimStr "z") = some "z*" from rfl]
  dsimp only
  rw [show svWide.execError = (none : Option String) from rfl]
  dsimp only
  rw [show wideIdx.matchRank "z*" = wideRows.map (fun r => (r, "")) from rfl]
  rw [List.take_of_length_le (by simp [wideRows, SEARCH_RESULT_LIMIT])]
  rw [List.map_map]
  rfl

set_option maxRecDepth 100000 in
theorem fallback_svWide :
    search_stories_fallback svWide (trimStr "z") = .ok wideFb := by decide

theorem wideIds_not_contain_x :
    ((List.range 499).map cjkId).contains "x" = false := by
  cases hc : ((List.range 499).map cjkId).contains "x" with
  | false => rfl
  | true =>
    exact absurd (show "x" ∈ (List.range 499).map cjkId by simpa using hc)
      (notMem_cjkIds (by omega) (show ('x' : Char).toNat < 0x4E00 by decide))

theorem search_svWide : search_stories svWide "z" = .ok wideMerged := by
  unfold search_stories
  rw [if_neg (by decide)]
  rw [with_index_svWide]
  dsimp only
  rw [fallback_svWide]
  simp only [Except.map, Except.ok.injEq]
  rw [show wideFb = ⟨"x", "z", "z", ""⟩ :: [(⟨"y", "z", "z", ""⟩ : SearchResult)] from rfl]
  rw [mergeLoop]
  rw [if_neg (show ¬((wideIResults.map (fun r => r.story_id)).contains
      (SearchResult.story_id ⟨"x", "z", "z", ""⟩) = true) by
    rw [show SearchResult.story_id ⟨"x", "z", "z", ""⟩ = "x" from rfl,
      wideIResults_ids, wideIds_not_contain_x]
    simp)]
  dsimp only
  rw [List.length_append, wideIResults_length]
  rw [if_pos (show SEARCH_RESULT_LIMIT ≤ 499 + [(⟨"x", "z", "z", ""⟩ : SearchResult)].length
    by simp [SEARCH_RESULT_LIMIT])]
  rfl

theorem wideMerged_length : wideMerged.length = 500 := by
  rw [show wideMerged = wideIResults ++ [⟨"x", "z", "z", ""⟩] from rfl,
    List.length_append, wideIResults_length]
  rfl

theorem wide_dedup_card :
    SEARCH_RESULT_LIMIT <
      (((wideIResults ++ wideFb).map (fun r => r.story_id)).dedup).length := by
  have hids : (wideIResults ++ wideFb).map (fun r => r.story_id) =
      ((List.range 499).map cjkId) ++ ["x", "y"] := by
    rw [List.map_append, wideIResults_ids]
    rfl
  rw [hids]
  have hnd : (((List.range 499).map cjkId) ++ ["x", "y"]).Nodup := by
    refine List.Nodup.append (cjkIds_nodup 499 (by omega)) (by decide) ?_
    intro s hs1 hs2
    rcases List.mem_map.mp hs1 with ⟨i, hir, heq⟩
    have hi : i < 1000 := lt_of_lt_of_le (List.mem_range.mp hir) (by omega)
    rcases List.mem_cons.mp hs2 with hx | hy
    · exact cjkId_ne hi (show ('x' : Char).toNat < 0x4E00 by decide) (heq.trans hx)
    · simp only [List.mem_singleton] at hy
      exact cjkId_ne hi (show ('y' : Char).toNat < 0x4E00 by decide) (heq.trans hy)
  rw [List.dedup_eq_self.mpr hnd]
  simp [SEARCH_RESULT_LIMIT]

/-- C1 counterexample: on a corpus where the index path is already full
(500 hits) and the fallback contributes one fresh story, the plain search
returns 501 results — the cap check runs after the push, so the limit is
overshot by one. -/
theorem C1_result_cap_counterexample :
    (search_stories svBig "z").map List.length = .ok (SEARCH_RESULT_LIMIT + 1) := by
  rw [search_svBig]
  simp only [Except.map]
  rw [List.length_append, bigResults_length]
  rfl

/-- C1 witness (amended cap): on a corpus with 499 index hits and two
fresh fallback stories the merged list stops exactly at the limit. -/
theorem C1_result_cap_witness :
    wideMerged.length ≤ SEARCH_RESULT_LIMIT + 1 ∧
      wideMerged.length = SEARCH_RESULT_LIMIT := by
  have h := C1_result_cap svWide "z" wideMerged search_svWide
  exact ⟨h.1, h.2 wideIResults wideFb with_index_svWide fallback_svWide
    (by rw [wideIResults_length]; simp [SEARCH_RESULT_LIMIT]) wide_dedup_card⟩

/-- C4 counterexample: on the 500-hit corpus the debug search caps at 500
results while the plain search returns 501, so the two endpoints disagree. -/
theorem C4_debug_results_counterexample :
    (search_stories_with_debug svBig "z").map (fun r => r.results.length) =
        .ok SEARCH_RESULT_LIMIT ∧
      (search_stories svBig "z").map List.length = .ok (SEARCH_RESULT_LIMIT + 1) := by
  refine ⟨debug_svBig, ?_⟩
  rw [search_svBig]
  simp only [Except.map]
  rw [List.length_append, bigResults_length]
  rfl

/-- C4 witness (amended agreement): on the small corpus, whose index path
is below the limit, the debug results equal the plain results. -/
theorem C4_debug_results_witness : dresSmall.results = resSmall := by
  have h := C4_debug_results svSmall "z" resSmall dresSmall
    (fun I hI => by
      have : I = ISmall := by
        have h2 : search_stories_with_index svSmall (trimStr "z") =
            .ok (some ISmall) := rfl
        rw [hI] at h2
        simpa using h2
      subst this
      decide)
    rfl rfl
  exact h.2 ISmall rfl (by decide)
